import Mathlib

/-!
Verification development for the Koda object-graph traversal / deep-clone
engine and the schema compatibility lattice.

Source material:
* `koladata/internal/schema_utils.cc` — DType lattice, `CommonDType`,
  `CommonDTypeAggregator`, `CommonSchemaAggregator`.
* `koladata/internal/op_utils/deep_clone.cc` — `DeepCloneVisitor`,
  `DeepCloneOp`.
* The traversal engine (`traverser.h`), the identity model (`object_id.h`),
  the value model (`data_item.h`) and the store (`data_bag.h`) are not part
  of the available sources (only their callers and tests are); those parts
  are modelled from the specification, and each such definition carries a
  doc comment starting with `Modelled from the spec:`.
-/

namespace Koladata

/-! ## DType lattice (from `schema_utils.cc`) -/

/-- The primitive / marker types of the schema lattice.  The fourteen
constructors are exactly the rows of `GetDTypeLattice()` in
`schema_utils.cc`.  The constructor order fixes the `DTypeId` numbering used
for iteration order; the C++ numeric ids live in the unavailable `dtype.h`,
and no result below depends on the particular numbering. -/
inductive DType where
  | none_
  | itemId
  | schemaM
  | int32
  | int64
  | float32
  | float64
  | mask
  | boolM
  | bytesM
  | textM
  | exprM
  | objectM
  | anyM
deriving DecidableEq, Repr, Fintype

/-- Adjacency list of the DType lattice: each type maps to its directly
wider neighbours.  Transcribed from `GetDTypeLattice()`. -/
def dtypeLattice : DType → List DType
  | .none_ => [.itemId, .schemaM, .int32, .mask, .boolM, .bytesM, .textM, .exprM]
  | .itemId => []
  | .schemaM => []
  | .int32 => [.int64]
  | .int64 => [.float32]
  | .float32 => [.float64]
  | .float64 => [.objectM]
  | .mask => [.objectM]
  | .boolM => [.objectM]
  | .bytesM => [.objectM]
  | .textM => [.objectM]
  | .exprM => [.objectM]
  | .objectM => [.anyM]
  | .anyM => []

/-- All DTypes in `DTypeId` order (the iteration order of the matrix). -/
def allDTypes : List DType :=
  [.none_, .itemId, .schemaM, .int32, .int64, .float32, .float64, .mask,
   .boolM, .bytesM, .textM, .exprM, .objectM, .anyM]

/-- Bounded-depth reachability in the lattice: `reachD n a b` holds when `b`
is reachable from `a` by at most `n` lattice edges. -/
def reachD : Nat → DType → DType → Bool
  | 0, a, b => a == b
  | n + 1, a, b => a == b || (dtypeLattice a).any fun c => reachD n c b

/-- `reachB a b`: `b` is reachable from `a`, i.e. `a` implicitly casts to
`b`.  This is the reflexive-transitive closure of the adjacency list; the
C++ computes the same relation once via Floyd-Warshall over bitsets
(`DTypeMatrix::GetReachableDTypes`).  Depth 14 covers every path in the
14-node lattice. -/
def reachB (a b : DType) : Bool := reachD 14 a b

/-- The set (as an id-ordered list) of types reachable from `a`. -/
def reachSet (a : DType) : List DType := allDTypes.filter fun b => reachB a b

/-- `CommonDType(a, b)` from `DTypeMatrix::GetMatrixImpl`: intersect the
reachable sets of `a` and `b`; `none` when the intersection is empty
(`kUnknownDType`); otherwise the first member of the intersection (in id
order) whose own reachable set has the same cardinality as the
intersection — the unique least upper bound.  The C++ `LOG(FATAL)` branch
(no such member: malformed lattice) corresponds to the inner `find?`
returning `none`, which never happens for this lattice. -/
def commonDType (a b : DType) : Option DType :=
  let cub := allDTypes.filter fun c => reachB a c && reachB b c
  if cub.isEmpty then none
  else allDTypes.find? fun i => cub.contains i && (reachSet i).length == cub.length

/-! ## Identity model (`object_id.h` is not among the sources) -/

/-- The kind of an allocation, as encoded by the ObjectId metadata bits
(is-list, is-dict, is-schema, is-implicit-schema).
Modelled from the spec: "ObjectId: an opaque, globally unique identifier
with embedded kind bits (is-list, is-dict, is-schema, is-implicit-schema,
is-explicit-schema, ...)". -/
inductive ObjKind where
  | entity
  | listK
  | dictK
  | schemaExplicit
  | schemaImplicit
deriving DecidableEq, Repr

/-- Modelled from the spec: "AllocationId: names a contiguous block of N
ObjectIds created together, with a fixed capacity and kind."  `base` is the
fresh block identity handed out by the allocator. -/
structure AllocationId where
  base : Nat
  capacity : Nat
  kind : ObjKind
deriving DecidableEq, Repr

/-- Modelled from the spec: an ObjectId is an allocation component plus an
offset within the block; identity is purely structural. -/
structure ObjectId where
  allocId : AllocationId
  offset : Nat
deriving DecidableEq, Repr

/-- `AllocationId::ObjectByOffset(i)`.  Modelled from the spec:
"`ObjectByOffset(i)` yields the i-th id in the block." -/
def AllocationId.objectByOffset (a : AllocationId) (i : Nat) : ObjectId :=
  ⟨a, i⟩

/-- `NewAllocationIdLike`.  Modelled from the spec: "Allocating 'like'
another allocation produces a new block of identical capacity/kind at a
fresh base."  Freshness is threaded explicitly: the caller passes the next
unused base. -/
def newAllocationIdLike (a : AllocationId) (freshBase : Nat) : AllocationId :=
  ⟨freshBase, a.capacity, a.kind⟩

/-- `AllocateExplicitSchemas`.  Modelled from the spec: "allocate N fresh
implicit/explicit schema ids" — a fresh block of explicit-schema kind with
the requested capacity. -/
def allocateExplicitSchemas (capacity : Nat) (freshBase : Nat) : AllocationId :=
  ⟨freshBase, capacity, .schemaExplicit⟩

def ObjectId.isList (o : ObjectId) : Bool := o.allocId.kind == .listK

def ObjectId.isDict (o : ObjectId) : Bool := o.allocId.kind == .dictK

def ObjectId.isSchemaId (o : ObjectId) : Bool :=
  o.allocId.kind == .schemaExplicit || o.allocId.kind == .schemaImplicit

def ObjectId.isImplicitSchemaId (o : ObjectId) : Bool :=
  o.allocId.kind == .schemaImplicit

/-! ## Value model (`data_item.h` is not among the sources) -/

/-- Primitive scalar payloads.  Modelled from the spec: "a primitive scalar
(boolean/integer/float/text/bytes/opaque-expression)"; the two carriers
used by the tests suffice for the embedding. -/
inductive Prim where
  | intV (i : Int)
  | textV (s : String)
deriving DecidableEq, Repr

/-- Modelled from the spec: "DataItem: an immutable tagged value: missing,
a primitive scalar, an ObjectId, or a schema-kind marker (DType)". -/
inductive DataItem where
  | missing
  | prim (p : Prim)
  | obj (o : ObjectId)
  | dtype (d : DType)
deriving DecidableEq, Repr

/-- `DataItem::holds_value<ObjectId>()`. -/
def DataItem.holdsObjectId : DataItem → Bool
  | .obj _ => true
  | _ => false

/-- `item.is_schema()` restricted to ObjectId payloads (the only case the
deep-clone code reaches it in): the held ObjectId has the schema kind
bit. -/
def DataItem.isSchemaObj : DataItem → Bool
  | .obj o => o.isSchemaId
  | _ => false

/-- `item.is_implicit_schema()` for ObjectId payloads. -/
def DataItem.isImplicitSchemaObj : DataItem → Bool
  | .obj o => o.isImplicitSchemaId
  | _ => false

/-! ## Error model -/

/-- The failure kinds of the subsystem (§7 of the spec), mirroring the
`absl::Status` values raised by the sources.  `fuelExhausted` is an
artifact of the bounded-recursion embedding of the traversal: it never
occurs when the recursion bound is large enough and stands for
non-termination, which the C++ engine avoids by the visited-set argument.
-/
inductive Err where
  | unsupportedSchema
  | unsupportedSchemaType
  | allocationNotFound
  | invalidArgument
  | noCommonSchema (common : DataItem) (conflicting : DataItem)
  | missingData
  | fuelExhausted
deriving DecidableEq, Repr

/-- Decidable equality of fallible results, for evaluating concrete
instances. -/
instance exceptDecEq {e a : Type} [DecidableEq e] [DecidableEq a] :
    DecidableEq (Except e a)
  | .ok x, .ok y =>
    if h : x = y then .isTrue (by rw [h])
    else .isFalse (by intro hc; cases hc; exact h rfl)
  | .error x, .error y =>
    if h : x = y then .isTrue (by rw [h])
    else .isFalse (by intro hc; cases hc; exact h rfl)
  | .ok _, .error _ => .isFalse (by intro hc; cases hc)
  | .error _, .ok _ => .isFalse (by intro hc; cases hc)

/-! ## Common-schema aggregation (from `schema_utils.cc`) -/

/-- Ascending-id list of the distinct DTypes recorded so far: the
`seen_dtypes_` bitmask of `CommonDTypeAggregator`, iterated from the least
significant bit as `Get` does. -/
def seenAscending (seen : List DType) : List DType :=
  allDTypes.filter fun d => seen.contains d

/-- The fold loop of `CommonDTypeAggregator::Get`: starting from the lowest
seen id, repeatedly join with `CommonDType`; the first unresolvable join
fails with the no-common-schema error carrying the accumulator and the
conflicting dtype. -/
def dtypeFoldLoop (acc : DType) : List DType → Except Err DType
  | [] => .ok acc
  | d :: rest =>
    match commonDType acc d with
    | some c => dtypeFoldLoop c rest
    | none => .error (.noCommonSchema (.dtype acc) (.dtype d))

/-- `CommonDTypeAggregator::Get`: `none` when no dtype was observed. -/
def dtypeAggGet (seen : List DType) : Except Err (Option DType) :=
  match seenAscending seen with
  | [] => .ok none
  | d :: rest => (dtypeFoldLoop d rest).map some

/-- The state of `CommonSchemaAggregator`: a sticky status, the dtype
bitmask (kept as the insertion list; only the set matters), and the single
entity-schema ObjectId observed so far. -/
structure CommonSchemaAggregator where
  status : Option Err := none
  seenDTypes : List DType := []
  resObjectId : Option ObjectId := none
deriving DecidableEq, Repr

/-- `CommonSchemaAggregator::Add(DType)`: fold the dtype into the mask
(the header carrying it is unavailable; behaviour fixed by
`CommonDTypeAggregator::Get` reading `seen_dtypes_` as a set of ids). -/
def CommonSchemaAggregator.addDType (st : CommonSchemaAggregator) (d : DType) :
    CommonSchemaAggregator :=
  { st with seenDTypes := d :: st.seenDTypes }

/-- `CommonSchemaAggregator::Add(ObjectId)` from `schema_utils.cc`: requires
a schema-kind id; the first one is recorded; a second distinct one raises
the no-common-schema error carrying both. -/
def CommonSchemaAggregator.addObjectId (st : CommonSchemaAggregator)
    (o : ObjectId) : CommonSchemaAggregator :=
  if !o.isSchemaId then { st with status := some .invalidArgument }
  else
    match st.resObjectId with
    | none => { st with resObjectId := some o }
    | some r =>
      if r ≠ o then
        { st with status := some (.noCommonSchema (.obj r) (.obj o)) }
      else st

/-- `CommonSchemaAggregator::Add(DataItem)`: dispatch on the payload;
anything that is neither a DType nor an ObjectId is an invalid argument. -/
def CommonSchemaAggregator.add (st : CommonSchemaAggregator) (schema : DataItem) :
    CommonSchemaAggregator :=
  match schema with
  | .dtype d => st.addDType d
  | .obj o => st.addObjectId o
  | _ => { st with status := some .invalidArgument }

/-- `CommonSchemaAggregator::Get()` from `schema_utils.cc`: run the dtype
fold (its failure wins), then the sticky status, then the result table over
(aggregated dtype, entity schema). -/
def CommonSchemaAggregator.get (st : CommonSchemaAggregator) :
    Except Err DataItem :=
  match dtypeAggGet st.seenDTypes with
  | .error e => .error e
  | .ok resDType =>
    match st.status with
    | some e => .error e
    | none =>
      match resDType, st.resObjectId with
      | some d, none => .ok (.dtype d)
      | none, some o => .ok (.obj o)
      | some d, some o =>
        if d = .none_ then .ok (.obj o)
        else .error (.noCommonSchema (.dtype d) (.obj o))
      | none, none => .ok (.dtype .objectM)

/-! ## DataBag read side (`data_bag.h` is not among the sources) -/

/-- Association-list lookup (first binding wins), standing in for the hash
maps of the C++ implementation. -/
def alookup {α β : Type} [DecidableEq α] : List (α × β) → α → Option β
  | [], _ => none
  | (k, v) :: rest, a => if k = a then some v else alookup rest a

/-- `schema::kSchemaAttr`: the attribute holding an object's own schema. -/
def kSchemaAttr : String := "__schema__"

/-- `schema::kListItemsSchemaAttr`. -/
def kListItemsAttr : String := "__items__"

/-- `schema::kDictKeysSchemaAttr`. -/
def kDictKeysAttr : String := "__keys__"

/-- `schema::kDictValuesSchemaAttr`. -/
def kDictValuesAttr : String := "__values__"

/-- Modelled from the spec: the DataBag triple store, read side — attribute
triples for entities, ordered list contents, dict entries, and schema
records.  The per-key fallback chain is abstracted into the effective
merged view a traversal observes. -/
structure Bag where
  attrs : List (ObjectId × List (String × DataItem))
  listItems : List (ObjectId × List DataItem)
  dictEntries : List (ObjectId × List (DataItem × DataItem))
  schemaAttrs : List (ObjectId × List (String × DataItem))
deriving DecidableEq, Repr

def Bag.attrValue (B : Bag) (o : ObjectId) (name : String) : Option DataItem :=
  (alookup B.attrs o).bind fun l => alookup l name

def Bag.listOf (B : Bag) (o : ObjectId) : List DataItem :=
  (alookup B.listItems o).getD []

def Bag.dictOf (B : Bag) (o : ObjectId) : List (DataItem × DataItem) :=
  (alookup B.dictEntries o).getD []

def Bag.schemaAttrsOf (B : Bag) (o : ObjectId) : List (String × DataItem) :=
  (alookup B.schemaAttrs o).getD []

/-! ## Traversal engine (`traverser.h` is not among the sources)

Modelled from the spec, §4.2: a generic cycle-safe two-phase walk of the
object graph, parametrized by a visitor; a per-call visited-set of
ObjectIds guarantees each distinct object is Previsited and Visited exactly
once; children are recursed into before the parent's `Visit*`, and the
children handed to `Visit*` have already been passed through `GetValue`. -/

/-- The visitor capability set of §4.2 (`AbstractVisitor`). -/
structure Visitor (σ : Type) where
  previsit : DataItem → DataItem → σ → Except Err σ
  getValue : DataItem → DataItem → σ → Except Err DataItem
  visitList : DataItem → DataItem → Bool → List DataItem → σ → Except Err σ
  visitDict : DataItem → DataItem → Bool → List (DataItem × DataItem) → σ →
    Except Err σ
  visitObject : DataItem → DataItem → Bool → List (String × Option DataItem) →
    σ → Except Err σ
  visitSchema : DataItem → DataItem → Bool → List (String × Option DataItem) →
    σ → Except Err σ
  visitPrimitive : DataItem → DataItem → σ → Except Err σ

/-- The shape-specific content of a walked node (spec §4.2 step 3/4):
list elements with their item schema, dict entries with key/value schemas,
entity attributes (declared name, value if present, attribute schema), or
a schema record's declared attribute types. -/
inductive NodePayload where
  | listNode (itemSchema : DataItem) (items : List DataItem)
  | dictNode (keySchema valueSchema : DataItem)
      (entries : List (DataItem × DataItem))
  | objNode (attrs : List (String × Option DataItem × DataItem))
  | schemaNode (attrs : List (String × DataItem))
deriving DecidableEq, Repr

/-- The resolved view of one node: the schema argument its `Visit*` call
receives (the embedded entity schema when discovery was dynamic), the
`is_object_schema` flag, and the node payload. -/
structure Expansion where
  eff : DataItem
  isObjSchema : Bool
  payload : NodePayload
deriving DecidableEq, Repr

/-- Resolve a node against an entity schema `so` (spec §4.2 steps 3-4):
lists read their item schema from the schema record's `__items__`, dicts
from `__keys__`/`__values__`, and entities pair every declared attribute
with the (possibly missing) attribute value. -/
def expandWith (B : Bag) (o : ObjectId) (so : ObjectId) (isObj : Bool) :
    Except Err Expansion :=
  if o.isList then
    match alookup (B.schemaAttrsOf so) kListItemsAttr with
    | none => .error .missingData
    | some ts => .ok ⟨.obj so, isObj, .listNode ts (B.listOf o)⟩
  else if o.isDict then
    match alookup (B.schemaAttrsOf so) kDictKeysAttr,
        alookup (B.schemaAttrsOf so) kDictValuesAttr with
    | some ks, some vs => .ok ⟨.obj so, isObj, .dictNode ks vs (B.dictOf o)⟩
    | _, _ => .error .missingData
  else
    .ok ⟨.obj so, isObj,
      .objNode ((B.schemaAttrsOf so).map fun p => (p.1, B.attrValue o p.1, p.2))⟩

/-- Classify and read a node (spec §4.2 steps 3-5): a statically declared
entity schema is used directly; under the dynamic `OBJECT` marker the
item's own embedded `__schema__` attribute is resolved first
(`is_object_schema := true`); under the `SCHEMA` marker the node is a
schema record whose children are its declared attribute types. -/
def expand (B : Bag) (o : ObjectId) (sc : DataItem) : Except Err Expansion :=
  match sc with
  | .obj so => expandWith B o so false
  | .dtype .schemaM => .ok ⟨.dtype .schemaM, false, .schemaNode (B.schemaAttrsOf o)⟩
  | .dtype .objectM =>
    match B.attrValue o kSchemaAttr with
    | some (.obj so) => expandWith B o so true
    | _ => .error .missingData
  | _ => .error .unsupportedSchemaType

/-- The child references recursed into before the parent's `Visit*` (spec
§4.2 step 6), each with its active schema.  A node resolved against an
entity schema also discovers that schema object itself as a schema record
(spec §4.2 step 5); a schema record's children are its attribute types
under the `SCHEMA` marker. -/
def childPairs (e : Expansion) : List (DataItem × DataItem) :=
  match e.payload with
  | .listNode ts items =>
    (e.eff, .dtype .schemaM) :: items.map fun it => (it, ts)
  | .dictNode ks vs entries =>
    (e.eff, .dtype .schemaM) ::
      (entries.map (fun p => (p.1, ks)) ++ entries.map fun p => (p.2, vs))
  | .objNode attrs =>
    (e.eff, .dtype .schemaM) ::
      attrs.filterMap fun p => p.2.1.map fun v => (v, p.2.2)
  | .schemaNode attrs => attrs.map fun p => (p.2, .dtype .schemaM)

/-- Map a list of (item, schema) children through the visitor's `GetValue`
(spec §4.2 step 7). -/
def mapGet (g : DataItem → DataItem → Except Err DataItem) :
    List (DataItem × DataItem) → Except Err (List DataItem)
  | [] => .ok []
  | (it, sc) :: rest =>
    match g it sc with
    | .error e => .error e
    | .ok v => (mapGet g rest).map fun vs => v :: vs

/-- Map entity attribute values (where present) through `GetValue`. -/
def mapGetAttrs (g : DataItem → DataItem → Except Err DataItem) :
    List (String × Option DataItem × DataItem) →
    Except Err (List (String × Option DataItem))
  | [] => .ok []
  | (n, none, _) :: rest =>
    (mapGetAttrs g rest).map fun vs => (n, none) :: vs
  | (n, some v, tsc) :: rest =>
    match g v tsc with
    | .error e => .error e
    | .ok w => (mapGetAttrs g rest).map fun vs => (n, some w) :: vs

/-- Emit one node's content (spec §4.2 step 7): children are passed through
`GetValue` and the shape-appropriate `Visit*` is called. -/
def emitNode (V : Visitor σ) (item : DataItem) (e : Expansion) (vst : σ) :
    Except Err σ :=
  match e.payload with
  | .listNode ts items =>
    match mapGet (fun it sc => V.getValue it sc vst) (items.map fun it => (it, ts)) with
    | .error er => .error er
    | .ok vals => V.visitList item e.eff e.isObjSchema vals vst
  | .dictNode ks vs entries =>
    match mapGet (fun it sc => V.getValue it sc vst) (entries.map fun p => (p.1, ks)) with
    | .error er => .error er
    | .ok keys =>
      match mapGet (fun it sc => V.getValue it sc vst) (entries.map fun p => (p.2, vs)) with
      | .error er => .error er
      | .ok vals => V.visitDict item e.eff e.isObjSchema (keys.zip vals) vst
  | .objNode attrs =>
    match mapGetAttrs (fun it sc => V.getValue it sc vst) attrs with
    | .error er => .error er
    | .ok mapped => V.visitObject item e.eff e.isObjSchema mapped vst
  | .schemaNode attrs =>
    match mapGetAttrs (fun it sc => V.getValue it sc vst)
        (attrs.map fun p => (p.1, some p.2, DataItem.dtype .schemaM)) with
    | .error er => .error er
    | .ok mapped => V.visitSchema item e.eff e.isObjSchema mapped vst

/-- Schemas an ObjectId item is walked under as a graph node: a statically
declared entity schema, the dynamic `OBJECT` marker, or the `SCHEMA`
marker.  Any other active schema classifies the item as terminal (spec
§4.2 step 2). -/
def walkableSchema : DataItem → Bool
  | .obj _ => true
  | .dtype .objectM => true
  | .dtype .schemaM => true
  | _ => false

/-- The traversal state: the visitor's own state, the visited-set (each
entry remembers the schema the object was discovered under; this list is
also the log of node previsits, newest first), and the log of completed
`Visit*` calls. -/
structure TState (σ : Type) where
  vst : σ
  visited : List (ObjectId × DataItem)
  vLog : List ObjectId
deriving Repr, DecidableEq

/-- Sequential traversal of a list of (item, schema) pairs, threading the
state; the first failure aborts (spec §4.2 step 8). -/
def traverseSeq (t : TState σ → DataItem × DataItem → Except Err (TState σ)) :
    TState σ → List (DataItem × DataItem) → Except Err (TState σ)
  | st, [] => .ok st
  | st, p :: ps =>
    match t st p with
    | .error e => .error e
    | .ok st2 => traverseSeq t st2 ps

/-- Terminal handling (spec §4.2 step 2): missing items, primitives, schema
markers, and anything under a non-walkable schema are Previsited and handed
to `VisitPrimitive`; no recursion, no visited-set change. -/
def terminalStep (V : Visitor σ) (item sc : DataItem) (st : TState σ) :
    Except Err (TState σ) :=
  match V.previsit item sc st.vst with
  | .error e => .error e
  | .ok vst1 =>
    match V.visitPrimitive item sc vst1 with
    | .error e => .error e
    | .ok vst2 => .ok ⟨vst2, st.visited, st.vLog⟩

/-- Node handling (spec §4.2 steps 3-7): an already-visited object is
skipped outright (cycle break); otherwise it is marked visited, Previsited,
resolved against the store, its children are recursed into via `rec`, and
finally its `Visit*` is invoked with GetValue-mapped children and the
completion is logged. -/
def nodeStep (V : Visitor σ) (B : Bag)
    (rec : TState σ → DataItem × DataItem → Except Err (TState σ))
    (o : ObjectId) (sc : DataItem) (st : TState σ) : Except Err (TState σ) :=
  if o ∈ st.visited.map Prod.fst then .ok st
  else
    match V.previsit (.obj o) sc st.vst with
    | .error e => .error e
    | .ok vst1 =>
      match expand B o sc with
      | .error e => .error e
      | .ok ex =>
        match traverseSeq rec ⟨vst1, (o, sc) :: st.visited, st.vLog⟩
            (childPairs ex) with
        | .error e => .error e
        | .ok st2 =>
          match emitNode V (.obj o) ex st2.vst with
          | .error e => .error e
          | .ok vst2 => .ok ⟨vst2, st2.visited, o :: st2.vLog⟩

/-- One traversal step (spec §4.2 steps 2-7): dispatch between node and
terminal handling.  The explicit recursion bound stands for the termination
the C++ engine gets from the visited-set argument. -/
def traverseItem (V : Visitor σ) (B : Bag) :
    Nat → TState σ → DataItem × DataItem → Except Err (TState σ)
  | 0, _, _ => .error .fuelExhausted
  | n + 1, st, (item, sc) =>
    match item with
    | .obj o =>
      if walkableSchema sc then
        nodeStep V B (fun s p => traverseItem V B n s p) o sc st
      else terminalStep V item sc st
    | _ => terminalStep V item sc st

/-- The root pairs of a traversal: every slice element under the declared
schema. -/
def rootPairs (ds : List DataItem) (sc : DataItem) : List (DataItem × DataItem) :=
  ds.map fun it => (it, sc)

/-- `Traverser::TraverseSlice`: walk every element of the root slice under
the declared schema, sharing one visited-set across the whole call. -/
def traverseSlice (V : Visitor σ) (B : Bag) (fuel : Nat) (vst0 : σ)
    (ds : List DataItem) (sc : DataItem) : Except Err (TState σ) :=
  traverseSeq (traverseItem V B fuel) ⟨vst0, [], []⟩ (rootPairs ds sc)

/-! ## The no-op visitor (from `traverser_test.cc`) -/

/-- The sentinel `GetValue` result of the test's `NoOpVisitor`. -/
def noOpValueItem : DataItem := .prim (.textV "get value result")

/-- `NoOpVisitor` from `traverser_test.cc`: records previsited
(item, schema) pairs; `GetValue` fails on a pair that was not previsited
and otherwise returns the sentinel; every `Visit*` checks that all the
children it receives are the sentinel. -/
def noOpVisitor : Visitor (List (DataItem × DataItem)) where
  previsit := fun it sc pv => .ok ((it, sc) :: pv)
  getValue := fun it sc pv =>
    if (it, sc) ∈ pv then .ok noOpValueItem else .error .invalidArgument
  visitList := fun _ _ _ items pv =>
    if items.all (· == noOpValueItem) then .ok pv else .error .invalidArgument
  visitDict := fun _ _ _ entries pv =>
    if entries.all (fun p => p.1 == noOpValueItem && p.2 == noOpValueItem)
    then .ok pv else .error .invalidArgument
  visitObject := fun _ _ _ attrs pv =>
    if attrs.all (fun p => p.2.all (· == noOpValueItem))
    then .ok pv else .error .invalidArgument
  visitSchema := fun _ _ _ attrs pv =>
    if attrs.all (fun p => p.2.all (· == noOpValueItem))
    then .ok pv else .error .invalidArgument
  visitPrimitive := fun _ _ pv => .ok pv

/-! ## DeepClone visitor (from `deep_clone.cc`) -/

/-- One write into the destination DataBag, as issued by
`DeepCloneVisitor` (`SetAttr`, `SetSchemaAttr`, `ExtendList`,
`SetInDict`). -/
inductive DestWrite where
  | setAttr (target : DataItem) (attr : String) (value : DataItem)
  | setSchemaAttr (target : DataItem) (attr : String) (value : DataItem)
  | extendList (target : DataItem) (items : List DataItem)
  | setInDict (target : DataItem) (entries : List (DataItem × DataItem))
deriving DecidableEq, Repr

/-- `DeepCloneVisitor` state: the allocation tracker (source AllocationId →
destination AllocationId), the next fresh allocation base (standing for
the global allocator), and the log of destination-bag writes. -/
structure CloneState where
  tracker : List (AllocationId × AllocationId)
  nextBase : Nat
  dest : List DestWrite
deriving DecidableEq, Repr

/-- `DeepCloneVisitor::PrevisitObject`: on first encounter of the item's
AllocationId, allocate a same-capacity/same-kind fresh allocation and
record it; later items of the same allocation reuse the mapping. -/
def dcPrevisitObject (item : DataItem) (st : CloneState) : CloneState :=
  match item with
  | .obj o =>
    match alookup st.tracker o.allocId with
    | some _ => st
    | none =>
      { st with
        tracker := (o.allocId, newAllocationIdLike o.allocId st.nextBase) :: st.tracker,
        nextBase := st.nextBase + 1 }
  | _ => st

/-- `DeepCloneVisitor::PrevisitSchema`: only implicit schemas, or explicit
schemas when the clone operates on a schema slice, get a fresh mapped
allocation; implicit schemas are forked into an explicit-schema
allocation of the same capacity. -/
def dcPrevisitSchema (isSchemaSlice : Bool) (item : DataItem)
    (st : CloneState) : CloneState :=
  match item with
  | .obj o =>
    if !o.isImplicitSchemaId && !isSchemaSlice then st
    else
      match alookup st.tracker o.allocId with
      | some _ => st
      | none =>
        let na :=
          if o.isImplicitSchemaId then
            allocateExplicitSchemas o.allocId.capacity st.nextBase
          else newAllocationIdLike o.allocId st.nextBase
        { st with tracker := (o.allocId, na) :: st.tracker,
                  nextBase := st.nextBase + 1 }
  | _ => st

/-- `DeepCloneVisitor::Previsit`: dispatch on the active schema — entity
schema or `OBJECT` registers the object, `ANY` is refused, `SCHEMA`
registers the schema, other DTypes are ignored, and a non-schema payload
is an internal error. -/
def dcPrevisit (isSchemaSlice : Bool) (item schema : DataItem)
    (st : CloneState) : Except Err CloneState :=
  match schema with
  | .obj _ => .ok (dcPrevisitObject item st)
  | .dtype d =>
    if d = .objectM then .ok (dcPrevisitObject item st)
    else if d = .anyM then .error .unsupportedSchema
    else if d = .schemaM then .ok (dcPrevisitSchema isSchemaSlice item st)
    else .ok st
  | _ => .error .unsupportedSchemaType

/-- `DeepCloneVisitor::GetValue`: identity on non-ObjectIds; an explicit
schema not being cloned as a schema slice is shared unchanged; otherwise
the item at the same offset of the tracked destination allocation, and a
missing tracker entry is the internal `AllocationNotFound` failure. -/
def dcGetValue (isSchemaSlice : Bool) (item _schema : DataItem)
    (st : CloneState) : Except Err DataItem :=
  match item with
  | .obj o =>
    if o.isSchemaId && !isSchemaSlice && !o.isImplicitSchemaId then .ok (.obj o)
    else
      match alookup st.tracker o.allocId with
      | none => .error .allocationNotFound
      | some na => .ok (.obj (na.objectByOffset o.offset))
  | it => .ok it

/-- `DeepCloneVisitor::SetSchemaAttr`: write the GetValue-mapped schema as
the target's `__schema__` attribute. -/
def dcSetSchemaAttr (isSchemaSlice : Bool) (target schema : DataItem)
    (st : CloneState) : Except Err CloneState :=
  match dcGetValue isSchemaSlice schema (.dtype .schemaM) st with
  | .error e => .error e
  | .ok v => .ok { st with dest := .setAttr target kSchemaAttr v :: st.dest }

/-- `DeepCloneVisitor::VisitList`. -/
def dcVisitList (isSchemaSlice : Bool) (lst schema : DataItem)
    (isObjSchema : Bool) (items : List DataItem) (st : CloneState) :
    Except Err CloneState :=
  match dcGetValue isSchemaSlice lst schema st with
  | .error e => .error e
  | .ok newList =>
    match (if isObjSchema then dcSetSchemaAttr isSchemaSlice newList schema st
           else .ok st) with
    | .error e => .error e
    | .ok st2 => .ok { st2 with dest := .extendList newList items :: st2.dest }

/-- `DeepCloneVisitor::VisitDict`. -/
def dcVisitDict (isSchemaSlice : Bool) (dict schema : DataItem)
    (isObjSchema : Bool) (entries : List (DataItem × DataItem))
    (st : CloneState) : Except Err CloneState :=
  match dcGetValue isSchemaSlice dict schema st with
  | .error e => .error e
  | .ok newDict =>
    match (if isObjSchema then dcSetSchemaAttr isSchemaSlice newDict schema st
           else .ok st) with
    | .error e => .error e
    | .ok st2 => .ok { st2 with dest := .setInDict newDict entries :: st2.dest }

/-- `DeepCloneVisitor::VisitObject` (and `VisitSchema`, which delegates to
it): resolve the new identity, write the mapped `__schema__` when the type
was dynamically discovered, then write every present attribute — through
the schema-attribute channel when the active schema is the `SCHEMA`
marker, the ordinary attribute channel otherwise. -/
def dcVisitObject (isSchemaSlice : Bool) (objItem schema : DataItem)
    (isObjSchema : Bool) (attrs : List (String × Option DataItem))
    (st : CloneState) : Except Err CloneState :=
  match dcGetValue isSchemaSlice objItem schema st with
  | .error e => .error e
  | .ok newObj =>
    match (if isObjSchema then dcSetSchemaAttr isSchemaSlice newObj schema st
           else .ok st) with
    | .error e => .error e
    | .ok st2 =>
      .ok { st2 with
        dest := (attrs.filterMap fun p =>
          p.2.map fun v =>
            if schema == .dtype .schemaM then DestWrite.setSchemaAttr newObj p.1 v
            else DestWrite.setAttr newObj p.1 v) ++ st2.dest }

/-- The deep-clone visitor, assembled as in `deep_clone.cc`. -/
def deepCloneVisitor (isSchemaSlice : Bool) : Visitor CloneState where
  previsit := dcPrevisit isSchemaSlice
  getValue := dcGetValue isSchemaSlice
  visitList := dcVisitList isSchemaSlice
  visitDict := dcVisitDict isSchemaSlice
  visitObject := dcVisitObject isSchemaSlice
  visitSchema := dcVisitObject isSchemaSlice
  visitPrimitive := fun _ _ st => .ok st

/-- The visitor state `DeepCloneOp` starts from: empty tracker, empty
destination, and the allocator's next fresh base. -/
def initCloneState (b0 : Nat) : CloneState := ⟨[], b0, []⟩

/-- `DeepCloneOp::operator()` (slice overload): traverse the slice under the
declared schema with a fresh `DeepCloneVisitor` (`is_schema_slice` exactly
when the declared schema is the `SCHEMA` marker), then map every top-level
element through `GetValue`; the declared schema is returned unchanged. -/
def deepCloneOp (B : Bag) (fuel : Nat) (b0 : Nat) (ds : List DataItem)
    (sc : DataItem) : Except Err (List DataItem × DataItem) :=
  let isSchemaSlice := sc == .dtype .schemaM
  match traverseSlice (deepCloneVisitor isSchemaSlice) B fuel
      (initCloneState b0) ds sc with
  | .error e => .error e
  | .ok st =>
    match mapGet (fun it s => dcGetValue isSchemaSlice it s st.vst)
        (rootPairs ds sc) with
    | .error e => .error e
    | .ok vals => .ok (vals, sc)

/-! ## Reachability of (item, schema) pairs

The engine-independent description of which (item, active-schema) pairs a
traversal can encounter: the root pairs plus, for every walkable ObjectId
pair whose node resolves, its child pairs.  This is phrased as an iterated
computable closure so that concrete instances are decidable. -/

/-- The child pairs an (item, schema) pair contributes: nothing unless the
item is an ObjectId under a walkable schema whose node resolves. -/
def pairChildren (B : Bag) (p : DataItem × DataItem) :
    List (DataItem × DataItem) :=
  match p.1 with
  | .obj o =>
    if walkableSchema p.2 then
      match expand B o p.2 with
      | .ok ex => childPairs ex
      | .error _ => []
    else []
  | _ => []

/-- One closure step: keep the pairs and add all their children. -/
def stepClosure (B : Bag) (ps : List (DataItem × DataItem)) :
    List (DataItem × DataItem) :=
  (ps ++ ps.flatMap (pairChildren B)).dedup

/-- `k`-fold closure of the root pairs under `pairChildren`. -/
def reachPairs (B : Bag) (roots : List (DataItem × DataItem)) :
    Nat → List (DataItem × DataItem)
  | 0 => roots
  | k + 1 => stepClosure B (reachPairs B roots k)

/-- `R` is closed under one more closure step (the fixpoint has been
reached).  Bool-valued so that concrete instances evaluate. -/
def closedUnderB (B : Bag) (R : List (DataItem × DataItem)) : Bool :=
  (stepClosure B R).all fun p => decide (p ∈ R)

/-- Every reachable ObjectId is carried by a single walkable schema: the
situation in which the visited-set keyed by ObjectId alone loses no
information.  Bool-valued so that concrete instances evaluate. -/
def schemaDeterministicB (R : List (DataItem × DataItem)) : Bool :=
  R.all fun p => R.all fun q =>
    match p, q with
    | (.obj o1, sc1), (.obj o2, sc2) =>
      !(decide (o1 = o2) && walkableSchema sc1 && walkableSchema sc2) ||
        decide (sc1 = sc2)
    | _, _ => true

/-- An ObjectId is reachable when some walkable pair in the closure carries
it. -/
def reachableObj (R : List (DataItem × DataItem)) (o : ObjectId) : Prop :=
  ∃ sc, (DataItem.obj o, sc) ∈ R ∧ walkableSchema sc = true

/-! ## Concrete stores used to instantiate the theorems

Modelled on the fixtures of `traverser_test.cc` / `deep_clone_test.cc`:
a shallow entity slice under an explicit schema, and a slice mixing
entities, dicts, lists and bare primitives under the dynamic `OBJECT`
schema. -/

def entAllocA : AllocationId := ⟨0, 3, .entity⟩

def entAllocS : AllocationId := ⟨1, 1, .schemaExplicit⟩

def entA0 : ObjectId := ⟨entAllocA, 0⟩

def entA1 : ObjectId := ⟨entAllocA, 1⟩

def entA2 : ObjectId := ⟨entAllocA, 2⟩

def entS : ObjectId := ⟨entAllocS, 0⟩

/-- Another explicit entity schema, distinct from `entS`. -/
def entS2 : ObjectId := ⟨⟨8, 1, .schemaExplicit⟩, 0⟩

/-- An implicit (uuid-derived) schema object. -/
def impS : ObjectId := ⟨⟨7, 2, .schemaImplicit⟩, 0⟩

/-- Three entities a0{x:1,y:4}, a1{x:2,y:5}, a2{x:3,y:6} under the explicit
schema S{x:INT32, y:INT32}. -/
def entBag : Bag :=
  { attrs := [(entA0, [("x", .prim (.intV 1)), ("y", .prim (.intV 4))]),
              (entA1, [("x", .prim (.intV 2)), ("y", .prim (.intV 5))]),
              (entA2, [("x", .prim (.intV 3)), ("y", .prim (.intV 6))])],
    listItems := [], dictEntries := [],
    schemaAttrs := [(entS, [("x", .dtype .int32), ("y", .dtype .int32)])] }

def entSlice : List DataItem := [.obj entA0, .obj entA1, .obj entA2]

def mixAllocE : AllocationId := ⟨0, 10, .entity⟩

def mixAllocD : AllocationId := ⟨1, 2, .dictK⟩

def mixAllocL : AllocationId := ⟨2, 2, .listK⟩

def mixAllocS : AllocationId := ⟨3, 6, .schemaExplicit⟩

def mixE0 : ObjectId := ⟨mixAllocE, 0⟩

def mixE1 : ObjectId := ⟨mixAllocE, 1⟩

def mixE2 : ObjectId := ⟨mixAllocE, 2⟩

def mixE3 : ObjectId := ⟨mixAllocE, 3⟩

def mixE4 : ObjectId := ⟨mixAllocE, 4⟩

def mixE5 : ObjectId := ⟨mixAllocE, 5⟩

def mixDict0 : ObjectId := ⟨mixAllocD, 0⟩

def mixDict1 : ObjectId := ⟨mixAllocD, 1⟩

def mixList0 : ObjectId := ⟨mixAllocL, 0⟩

def mixList1 : ObjectId := ⟨mixAllocL, 1⟩

def mixItemSchema : ObjectId := ⟨mixAllocS, 0⟩

def mixKeySchema : ObjectId := ⟨mixAllocS, 1⟩

def mixDict0Schema : ObjectId := ⟨mixAllocS, 2⟩

def mixDict1Schema : ObjectId := ⟨mixAllocS, 3⟩

def mixList0Schema : ObjectId := ⟨mixAllocS, 4⟩

def mixList1Schema : ObjectId := ⟨mixAllocS, 5⟩

/-- The `ObjectsSlice` fixture: entities with embedded schemas, a dict with
primitive keys/values, a dict with entity keys/values, a list of entities,
a list of primitives. -/
def mixBag : Bag :=
  { attrs :=
      [(mixE0, [(kSchemaAttr, .obj mixItemSchema), ("x", .prim (.intV 1))]),
       (mixE1, [(kSchemaAttr, .obj mixItemSchema), ("x", .prim (.intV 2))]),
       (mixE2, [("name", .prim (.textV "k0"))]),
       (mixE3, [("x", .prim (.intV 10))]),
       (mixE4, [(kSchemaAttr, .obj mixItemSchema), ("x", .prim (.intV 3))]),
       (mixE5, [(kSchemaAttr, .obj mixItemSchema), ("x", .prim (.intV 4))]),
       (mixDict0, [(kSchemaAttr, .obj mixDict0Schema)]),
       (mixDict1, [(kSchemaAttr, .obj mixDict1Schema)]),
       (mixList0, [(kSchemaAttr, .obj mixList0Schema)]),
       (mixList1, [(kSchemaAttr, .obj mixList1Schema)])],
    listItems :=
      [(mixList0, [.obj mixE4, .obj mixE5]),
       (mixList1, [.prim (.intV 0), .prim (.intV 1), .prim (.intV 2)])],
    dictEntries :=
      [(mixDict0, [(.prim (.textV "a"), .prim (.intV 1))]),
       (mixDict1, [(.obj mixE2, .obj mixE3)])],
    schemaAttrs :=
      [(mixItemSchema, [("x", .dtype .int32)]),
       (mixKeySchema, [("name", .dtype .textM)]),
       (mixDict0Schema,
        [(kDictKeysAttr, .dtype .textM), (kDictValuesAttr, .dtype .int32)]),
       (mixDict1Schema,
        [(kDictKeysAttr, .obj mixKeySchema),
         (kDictValuesAttr, .obj mixItemSchema)]),
       (mixList0Schema, [(kListItemsAttr, .obj mixItemSchema)]),
       (mixList1Schema, [(kListItemsAttr, .dtype .int32)])] }

/-- The mixed root slice: entities, a missing item, bare primitives, dicts
and lists, traversed under the dynamic `OBJECT` schema. -/
def mixSlice : List DataItem :=
  [.obj mixE0, .obj mixE1, .missing, .prim (.intV 3), .prim (.textV "a"),
   .obj mixDict0, .obj mixDict1, .obj mixList0, .obj mixList1]

/-- The stabilized reachable-pair closure of the mixed scenario. -/
def mixReach : List (DataItem × DataItem) :=
  reachPairs mixBag (rootPairs mixSlice (.dtype .objectM)) 6

/-- Extract the final traversal state of a run known to succeed. -/
def stateOf {σ : Type} (d : σ) (r : Except Err (TState σ)) : TState σ :=
  match r with
  | .ok st => st
  | .error _ => ⟨d, [], []⟩

/-! ## Invariant definitions used by the engine lemmas -/

/-- A step preserves the no-duplicates property of the visited objects. -/
def nodupPres (t : TState σ → DataItem × DataItem → Except Err (TState σ)) :
    Prop :=
  ∀ st p st', t st p = .ok st' → (st.visited.map Prod.fst).Nodup →
    (st'.visited.map Prod.fst).Nodup

/-- The invariant that every visited entry is a walkable pair of `R`. -/
def visInv (R : List (DataItem × DataItem)) (st : TState σ) : Prop :=
  ∀ e ∈ st.visited,
    ((DataItem.obj e.1, e.2) : DataItem × DataItem) ∈ R ∧
      walkableSchema e.2 = true

/-- A visited entry is fully processed: its node resolved, and every
walkable ObjectId among its children is in the visited set. -/
def closProp (B : Bag) (vis : List ObjectId) (e : ObjectId × DataItem) :
    Prop :=
  ∃ ex, expand B e.1 e.2 = .ok ex ∧
    ∀ q ∈ childPairs ex, ∀ oq : ObjectId, q.1 = .obj oq →
      walkableSchema q.2 = true → oq ∈ vis

/-- A visitor-state property preserved by every visitor capability. -/
def vstPres {σ : Type} (V : Visitor σ) (P : σ → Prop) : Prop :=
  (∀ it sc s s', V.previsit it sc s = .ok s' → P s → P s') ∧
  (∀ it sc b items s s', V.visitList it sc b items s = .ok s' → P s → P s') ∧
  (∀ it sc b entries s s', V.visitDict it sc b entries s = .ok s' → P s → P s') ∧
  (∀ it sc b attrs s s', V.visitObject it sc b attrs s = .ok s' → P s → P s') ∧
  (∀ it sc b attrs s s', V.visitSchema it sc b attrs s = .ok s' → P s → P s') ∧
  (∀ it sc s s', V.visitPrimitive it sc s = .ok s' → P s → P s')

/-- The deep-clone freshness invariant: every destination allocation handed
out so far has a base at or above the initial allocator mark `b0`, and the
allocator never goes below it. -/
def freshInv (b0 : Nat) (s : CloneState) : Prop :=
  b0 ≤ s.nextBase ∧ ∀ pr ∈ s.tracker, b0 ≤ (pr.2 : AllocationId).base

/-! ## Engine lemmas: state evolution -/

/-- A traversal step only prepends newly visited nodes to the visited list
and logs the completed visits of exactly those nodes. -/
def deltaProp (t : TState σ → DataItem × DataItem → Except Err (TState σ)) :
    Prop :=
  ∀ st p st', t st p = .ok st' →
    ∃ Δ, st'.visited = Δ ++ st.visited ∧
      st'.vLog.Perm (Δ.map Prod.fst ++ st.vLog)

theorem traverseSeq_delta {σ : Type}
    {t : TState σ → DataItem × DataItem → Except Err (TState σ)}
    (ht : deltaProp t) :
    ∀ (ps : List (DataItem × DataItem)) (st st' : TState σ),
      traverseSeq t st ps = .ok st' →
      ∃ Δ, st'.visited = Δ ++ st.visited ∧
        st'.vLog.Perm (Δ.map Prod.fst ++ st.vLog) := by
  intro ps
  induction ps with
  | nil =>
    intro st st' h
    simp only [traverseSeq] at h
    cases h
    exact ⟨[], by simp, by simp⟩
  | cons p ps ih =>
    intro st st' h
    simp only [traverseSeq] at h
    cases hp : t st p with
    | error e => rw [hp] at h; cases h
    | ok st1 =>
      rw [hp] at h
      obtain ⟨Δ1, hv1, hl1⟩ := ht st p st1 hp
      obtain ⟨Δ2, hv2, hl2⟩ := ih st1 st' h
      refine ⟨Δ2 ++ Δ1, ?_, ?_⟩
      · rw [hv2, hv1, List.append_assoc]
      · refine hl2.trans ?_
        refine (List.Perm.append_left (Δ2.map Prod.fst) hl1).trans ?_
        simp [List.append_assoc]

theorem terminalStep_ok {σ : Type} {V : Visitor σ} {item sc : DataItem}
    {st st' : TState σ} (h : terminalStep V item sc st = .ok st') :
    st'.visited = st.visited ∧ st'.vLog = st.vLog := by
  unfold terminalStep at h
  split at h
  · cases h
  · split at h
    · cases h
    · cases h
      exact ⟨rfl, rfl⟩

theorem nodeStep_delta {σ : Type} {V : Visitor σ} {B : Bag}
    {rec : TState σ → DataItem × DataItem → Except Err (TState σ)}
    (ht : deltaProp rec) {o : ObjectId} {sc : DataItem} {st st' : TState σ}
    (h : nodeStep V B rec o sc st = .ok st') :
    ∃ Δ, st'.visited = Δ ++ st.visited ∧
      st'.vLog.Perm (Δ.map Prod.fst ++ st.vLog) := by
  unfold nodeStep at h
  split at h
  · cases h
    exact ⟨[], by simp, by simp⟩
  · split at h
    · cases h
    · split at h
      · cases h
      · rename_i vst1 hpre ex hexp
        split at h
        · cases h
        · rename_i st2 hseq
          split at h
          · cases h
          · rename_i vst2 hemit
            cases h
            obtain ⟨Δc, hvc, hlc⟩ := traverseSeq_delta ht _ _ _ hseq
            refine ⟨Δc ++ [(o, sc)], ?_, ?_⟩
            · simp only at hvc
              rw [hvc]
              simp
            · simp only at hlc
              refine (hlc.cons o).trans ?_
              refine List.Perm.trans List.perm_middle.symm ?_
              simp

theorem traverseItem_delta {σ : Type} (V : Visitor σ) (B : Bag) :
    ∀ n, deltaProp (traverseItem V B n) := by
  intro n
  induction n with
  | zero =>
    intro st p st' h
    simp [traverseItem] at h
  | succ n ih =>
    intro st p st' h
    obtain ⟨item, sc⟩ := p
    cases item with
    | obj o =>
      simp only [traverseItem] at h
      split at h
      · exact nodeStep_delta ih h
      · obtain ⟨hv, hl⟩ := terminalStep_ok h
        exact ⟨[], by simp [hv], by simp [hl]⟩
    | missing =>
      simp only [traverseItem] at h
      obtain ⟨hv, hl⟩ := terminalStep_ok h
      exact ⟨[], by simp [hv], by simp [hl]⟩
    | prim q =>
      simp only [traverseItem] at h
      obtain ⟨hv, hl⟩ := terminalStep_ok h
      exact ⟨[], by simp [hv], by simp [hl]⟩
    | dtype d =>
      simp only [traverseItem] at h
      obtain ⟨hv, hl⟩ := terminalStep_ok h
      exact ⟨[], by simp [hv], by simp [hl]⟩

/-- Visited-list membership is monotone along a successful step. -/
theorem delta_vis_mono {σ : Type}
    {t : TState σ → DataItem × DataItem → Except Err (TState σ)}
    (ht : deltaProp t) {st : TState σ} {p : DataItem × DataItem}
    {st' : TState σ} (h : t st p = .ok st') {e : ObjectId × DataItem}
    (he : e ∈ st.visited) : e ∈ st'.visited := by
  obtain ⟨Δ, hv, _⟩ := ht st p st' h
  rw [hv]
  exact List.mem_append_right Δ he

theorem traverseSeq_vis_mono {σ : Type}
    {t : TState σ → DataItem × DataItem → Except Err (TState σ)}
    (ht : deltaProp t) {ps : List (DataItem × DataItem)} {st st' : TState σ}
    (h : traverseSeq t st ps = .ok st') {e : ObjectId × DataItem}
    (he : e ∈ st.visited) : e ∈ st'.visited := by
  obtain ⟨Δ, hv, _⟩ := traverseSeq_delta ht ps st st' h
  rw [hv]
  exact List.mem_append_right Δ he

/-! ## Engine lemmas: visited exactly once -/

theorem traverseSeq_nodup {σ : Type}
    {t : TState σ → DataItem × DataItem → Except Err (TState σ)}
    (ht : nodupPres t) :
    ∀ (ps : List (DataItem × DataItem)) (st st' : TState σ),
      traverseSeq t st ps = .ok st' → (st.visited.map Prod.fst).Nodup →
      (st'.visited.map Prod.fst).Nodup := by
  intro ps
  induction ps with
  | nil =>
    intro st st' h hn
    simp only [traverseSeq] at h
    cases h
    exact hn
  | cons p ps ih =>
    intro st st' h hn
    simp only [traverseSeq] at h
    cases hp : t st p with
    | error e => rw [hp] at h; cases h
    | ok st1 =>
      rw [hp] at h
      exact ih st1 st' h (ht st p st1 hp hn)

theorem nodeStep_nodup {σ : Type} {V : Visitor σ} {B : Bag}
    {rec : TState σ → DataItem × DataItem → Except Err (TState σ)}
    (ht : nodupPres rec) {o : ObjectId} {sc : DataItem} {st st' : TState σ}
    (h : nodeStep V B rec o sc st = .ok st')
    (hn : (st.visited.map Prod.fst).Nodup) :
    (st'.visited.map Prod.fst).Nodup := by
  unfold nodeStep at h
  split at h
  · cases h
    exact hn
  · rename_i hmem
    split at h
    · cases h
    · split at h
      · cases h
      · split at h
        · cases h
        · rename_i st2 hseq
          split at h
          · cases h
          · cases h
            have hn1 : ((((o, sc) : ObjectId × DataItem) :: st.visited).map
                Prod.fst).Nodup := by
              simp only [List.map_cons, List.nodup_cons]
              exact ⟨hmem, hn⟩
            have h2 := traverseSeq_nodup ht _ _ _ hseq hn1
            exact h2

theorem traverseItem_nodup {σ : Type} (V : Visitor σ) (B : Bag) :
    ∀ n, nodupPres (traverseItem V B n) := by
  intro n
  induction n with
  | zero =>
    intro st p st' h
    simp [traverseItem] at h
  | succ n ih =>
    intro st p st' h hn
    obtain ⟨item, sc⟩ := p
    cases item with
    | obj o =>
      simp only [traverseItem] at h
      split at h
      · exact nodeStep_nodup ih h hn
      · rw [(terminalStep_ok h).1]
        exact hn
    | missing =>
      simp only [traverseItem] at h
      rw [(terminalStep_ok h).1]
      exact hn
    | prim q =>
      simp only [traverseItem] at h
      rw [(terminalStep_ok h).1]
      exact hn
    | dtype d =>
      simp only [traverseItem] at h
      rw [(terminalStep_ok h).1]
      exact hn

/-- After a successful walkable step, the walked object is in the visited
set. -/
theorem traverseItem_covers {σ : Type} (V : Visitor σ) (B : Bag) :
    ∀ (n : Nat) (st : TState σ) (o : ObjectId) (sc : DataItem)
      (st' : TState σ),
      traverseItem V B n st (.obj o, sc) = .ok st' →
      walkableSchema sc = true → o ∈ st'.visited.map Prod.fst := by
  intro n st o sc st' h hw
  cases n with
  | zero => simp [traverseItem] at h
  | succ n =>
    simp only [traverseItem] at h
    rw [if_pos hw] at h
    unfold nodeStep at h
    split at h
    · rename_i hmem
      cases h
      exact hmem
    · split at h
      · cases h
      · split at h
        · cases h
        · split at h
          · cases h
          · rename_i st2 hseq
            split at h
            · cases h
            · cases h
              have : ((o, sc) : ObjectId × DataItem) ∈ st2.visited :=
                traverseSeq_vis_mono (traverseItem_delta V B n) hseq
                  (List.mem_cons_self _ _)
              simp only [List.map_cons]
              exact List.mem_map_of_mem Prod.fst this

/-- Every walkable pair of the processed list ends up visited. -/
theorem traverseSeq_covers {σ : Type} {V : Visitor σ} {B : Bag} {n : Nat} :
    ∀ (ps : List (DataItem × DataItem)) (st st' : TState σ),
      traverseSeq (traverseItem V B n) st ps = .ok st' →
      ∀ p ∈ ps, ∀ o : ObjectId, p.1 = .obj o → walkableSchema p.2 = true →
        o ∈ st'.visited.map Prod.fst := by
  intro ps
  induction ps with
  | nil =>
    intro st st' h p hp
    cases hp
  | cons q ps ih =>
    intro st st' h p hp o hobj hw
    simp only [traverseSeq] at h
    cases hq : traverseItem V B n st q with
    | error e => rw [hq] at h; cases h
    | ok st1 =>
      rw [hq] at h
      rcases List.mem_cons.mp hp with hph | hpt
      · subst hph
        obtain ⟨p1, p2⟩ := p
        simp only at hobj
        subst hobj
        have h1 := traverseItem_covers V B n st o p2 st1 hq hw
        obtain ⟨e, he, hefst⟩ := List.exists_of_mem_map h1
        have := traverseSeq_vis_mono (traverseItem_delta V B n) h he
        rw [← hefst]
        exact List.mem_map_of_mem Prod.fst this
      · exact ih st1 st' h p hpt o hobj hw

/-! ## Engine lemmas: soundness of the visited set -/

theorem pairChildren_of_expand {B : Bag} {o : ObjectId} {sc : DataItem}
    {ex : Expansion} (hw : walkableSchema sc = true)
    (hexp : expand B o sc = .ok ex) :
    pairChildren B (.obj o, sc) = childPairs ex := by
  simp [pairChildren, hw, hexp]

/-- A closed relation contains the children of each of its pairs. -/
theorem closed_children {B : Bag} {R : List (DataItem × DataItem)}
    (hc : closedUnderB B R = true) :
    ∀ p ∈ R, ∀ q ∈ pairChildren B p, q ∈ R := by
  intro p hp q hq
  have hmem : q ∈ stepClosure B R := by
    unfold stepClosure
    rw [List.mem_dedup]
    exact List.mem_append_right _ (List.mem_flatMap.mpr ⟨p, hp, hq⟩)
  have hall := List.all_eq_true.mp hc q hmem
  exact of_decide_eq_true hall

theorem traverseSeq_inv {σ : Type} {R : List (DataItem × DataItem)}
    {t : TState σ → DataItem × DataItem → Except Err (TState σ)}
    (ht : ∀ st p st', t st p = .ok st' → p ∈ R → visInv R st → visInv R st') :
    ∀ (ps : List (DataItem × DataItem)) (st st' : TState σ),
      traverseSeq t st ps = .ok st' → (∀ p ∈ ps, p ∈ R) → visInv R st →
      visInv R st' := by
  intro ps
  induction ps with
  | nil =>
    intro st st' h _ hi
    simp only [traverseSeq] at h
    cases h
    exact hi
  | cons p ps ih =>
    intro st st' h hps hi
    simp only [traverseSeq] at h
    cases hp : t st p with
    | error e => rw [hp] at h; cases h
    | ok st1 =>
      rw [hp] at h
      exact ih st1 st' h (fun q hq => hps q (List.mem_cons_of_mem p hq))
        (ht st p st1 hp (hps p (List.mem_cons_self p ps)) hi)

theorem traverseItem_inv {σ : Type} {V : Visitor σ} {B : Bag}
    {R : List (DataItem × DataItem)} (hc : closedUnderB B R = true) :
    ∀ (n : Nat) (st : TState σ) (p : DataItem × DataItem) (st' : TState σ),
      traverseItem V B n st p = .ok st' → p ∈ R → visInv R st →
      visInv R st' := by
  intro n
  induction n with
  | zero =>
    intro st p st' h
    simp [traverseItem] at h
  | succ n ih =>
    intro st p st' h hp hi
    obtain ⟨item, sc⟩ := p
    cases item with
    | obj o =>
      simp only [traverseItem] at h
      split at h
      · rename_i hw
        unfold nodeStep at h
        split at h
        · cases h
          exact hi
        · split at h
          · cases h
          · split at h
            · cases h
            · rename_i ex hexp
              split at h
              · cases h
              · rename_i st2 hseq
                split at h
                · cases h
                · cases h
                  have hch : ∀ q ∈ childPairs ex, q ∈ R := by
                    intro q hq
                    refine closed_children hc _ hp q ?_
                    rw [pairChildren_of_expand hw hexp]
                    exact hq
                  refine fun e he => traverseSeq_inv ih _ _ _ hseq hch ?_ e he
                  intro e1 he1
                  simp only at he1
                  rcases List.mem_cons.mp he1 with he2 | he3
                  · subst he2
                    exact ⟨hp, hw⟩
                  · exact hi e1 he3
      · obtain ⟨hv, _⟩ := terminalStep_ok h
        intro e he
        rw [hv] at he
        exact hi e he
    | missing =>
      simp only [traverseItem] at h
      obtain ⟨hv, _⟩ := terminalStep_ok h
      intro e he
      rw [hv] at he
      exact hi e he
    | prim q =>
      simp only [traverseItem] at h
      obtain ⟨hv, _⟩ := terminalStep_ok h
      intro e he
      rw [hv] at he
      exact hi e he
    | dtype d =>
      simp only [traverseItem] at h
      obtain ⟨hv, _⟩ := terminalStep_ok h
      intro e he
      rw [hv] at he
      exact hi e he

/-! ## Engine lemmas: every visited node's children are visited -/

theorem closProp_mono {B : Bag} {vis vis' : List ObjectId}
    {e : ObjectId × DataItem} (hsub : ∀ o ∈ vis, o ∈ vis') :
    closProp B vis e → closProp B vis' e := by
  rintro ⟨ex, hexp, hcov⟩
  exact ⟨ex, hexp, fun q hq oq h1 h2 => hsub oq (hcov q hq oq h1 h2)⟩

theorem traverseSeq_clos {σ : Type} {B : Bag}
    {t : TState σ → DataItem × DataItem → Except Err (TState σ)}
    (htc : ∀ (Ex : List (ObjectId × DataItem)) (st : TState σ) p st',
      t st p = .ok st' →
      (∀ e ∈ st.visited, e ∈ Ex ∨ closProp B (st.visited.map Prod.fst) e) →
      (∀ e ∈ st'.visited, e ∈ Ex ∨ closProp B (st'.visited.map Prod.fst) e)) :
    ∀ (Ex : List (ObjectId × DataItem)) (ps : List (DataItem × DataItem))
      (st st' : TState σ),
      traverseSeq t st ps = .ok st' →
      (∀ e ∈ st.visited, e ∈ Ex ∨ closProp B (st.visited.map Prod.fst) e) →
      (∀ e ∈ st'.visited, e ∈ Ex ∨ closProp B (st'.visited.map Prod.fst) e) := by
  intro Ex ps
  induction ps with
  | nil =>
    intro st st' h hi
    simp only [traverseSeq] at h
    cases h
    exact hi
  | cons p ps ih =>
    intro st st' h hi
    simp only [traverseSeq] at h
    cases hp : t st p with
    | error e => rw [hp] at h; cases h
    | ok st1 =>
      rw [hp] at h
      exact ih st1 st' h (htc Ex st p st1 hp hi)

theorem traverseItem_clos {σ : Type} {V : Visitor σ} {B : Bag} :
    ∀ (n : Nat) (Ex : List (ObjectId × DataItem)) (st : TState σ)
      (p : DataItem × DataItem) (st' : TState σ),
      traverseItem V B n st p = .ok st' →
      (∀ e ∈ st.visited, e ∈ Ex ∨ closProp B (st.visited.map Prod.fst) e) →
      (∀ e ∈ st'.visited, e ∈ Ex ∨ closProp B (st'.visited.map Prod.fst) e) := by
  intro n
  induction n with
  | zero =>
    intro Ex st p st' h
    simp [traverseItem] at h
  | succ n ih =>
    intro Ex st p st' h hi
    obtain ⟨item, sc⟩ := p
    cases item with
    | obj o =>
      simp only [traverseItem] at h
      split at h
      · rename_i hw
        unfold nodeStep at h
        split at h
        · cases h
          exact hi
        · split at h
          · cases h
          · split at h
            · cases h
            · rename_i ex hexp
              split at h
              · cases h
              · rename_i st2 hseq
                split at h
                · cases h
                · cases h
                  have hpre : ∀ e ∈
                      (((o, sc) : ObjectId × DataItem) :: st.visited),
                      e ∈ ((o, sc) :: Ex) ∨
                        closProp B
                          ((((o, sc) : ObjectId × DataItem) ::
                            st.visited).map Prod.fst) e := by
                    intro e he
                    rcases List.mem_cons.mp he with he1 | he2
                    · exact Or.inl (he1 ▸ List.mem_cons_self _ _)
                    · rcases hi e he2 with hl | hr
                      · exact Or.inl (List.mem_cons_of_mem _ hl)
                      · refine Or.inr (closProp_mono ?_ hr)
                        intro x hx
                        exact List.mem_cons_of_mem _ hx
                  have hc2 := traverseSeq_clos (fun a b c d he hf => ih a b c d he hf)
                      ((o, sc) :: Ex) (childPairs ex) _ st2 hseq hpre
                  have hcur : closProp B (st2.visited.map Prod.fst)
                      ((o, sc) : ObjectId × DataItem) := by
                    refine ⟨ex, hexp, ?_⟩
                    intro q hq oq h1 h2
                    exact traverseSeq_covers (childPairs ex) _ st2 hseq q hq oq h1 h2
                  intro e he
                  simp only at he
                  rcases hc2 e he with hl | hr
                  · rcases List.mem_cons.mp hl with he1 | he2
                    · subst he1
                      exact Or.inr hcur
                    · exact Or.inl he2
                  · exact Or.inr hr
      · obtain ⟨hv, _⟩ := terminalStep_ok h
        intro e he
        rw [hv] at he
        rcases hi e he with hl | hr
        · exact Or.inl hl
        · exact Or.inr (by rw [hv]; exact hr)
    | missing =>
      simp only [traverseItem] at h
      obtain ⟨hv, _⟩ := terminalStep_ok h
      intro e he
      rw [hv] at he
      rcases hi e he with hl | hr
      · exact Or.inl hl
      · exact Or.inr (by rw [hv]; exact hr)
    | prim q =>
      simp only [traverseItem] at h
      obtain ⟨hv, _⟩ := terminalStep_ok h
      intro e he
      rw [hv] at he
      rcases hi e he with hl | hr
      · exact Or.inl hl
      · exact Or.inr (by rw [hv]; exact hr)
    | dtype d =>
      simp only [traverseItem] at h
      obtain ⟨hv, _⟩ := terminalStep_ok h
      intro e he
      rw [hv] at he
      rcases hi e he with hl | hr
      · exact Or.inl hl
      · exact Or.inr (by rw [hv]; exact hr)

/-! ## Engine lemmas: completeness of the visited set -/

theorem reachPairs_mono_step {B : Bag} {roots : List (DataItem × DataItem)}
    {k : Nat} {p : DataItem × DataItem} (hp : p ∈ reachPairs B roots k) :
    p ∈ reachPairs B roots (k + 1) := by
  simp only [reachPairs]
  unfold stepClosure
  rw [List.mem_dedup]
  exact List.mem_append_left _ hp

theorem reachPairs_mono {B : Bag} {roots : List (DataItem × DataItem)}
    {k n : Nat} (hkn : k ≤ n) {p : DataItem × DataItem}
    (hp : p ∈ reachPairs B roots k) : p ∈ reachPairs B roots n := by
  induction hkn with
  | refl => exact hp
  | step _ ih => exact reachPairs_mono_step ih

theorem schemaDet_spec {R : List (DataItem × DataItem)}
    (hd : schemaDeterministicB R = true) :
    ∀ (o : ObjectId) (sc1 sc2 : DataItem), (DataItem.obj o, sc1) ∈ R →
      (DataItem.obj o, sc2) ∈ R → walkableSchema sc1 = true →
      walkableSchema sc2 = true → sc1 = sc2 := by
  intro o sc1 sc2 h1 h2 hw1 hw2
  have ha := List.all_eq_true.mp hd _ h1
  have hb := List.all_eq_true.mp ha _ h2
  simp [hw1, hw2] at hb
  exact hb

theorem traverse_complete {σ : Type} {V : Visitor σ} {B : Bag} {fuel : Nat}
    {vst0 : σ} {ds : List DataItem} {sc : DataItem} {st' : TState σ}
    {n : Nat} (h : traverseSlice V B fuel vst0 ds sc = .ok st')
    (hclos : closedUnderB B (reachPairs B (rootPairs ds sc) n) = true)
    (hdet : schemaDeterministicB (reachPairs B (rootPairs ds sc) n) = true) :
    ∀ k, k ≤ n → ∀ p ∈ reachPairs B (rootPairs ds sc) k,
      ∀ o : ObjectId, p.1 = .obj o → walkableSchema p.2 = true →
        o ∈ st'.visited.map Prod.fst := by
  unfold traverseSlice at h
  have hroots : ∀ p ∈ rootPairs ds sc, p ∈ reachPairs B (rootPairs ds sc) n :=
    fun p hp => reachPairs_mono (Nat.zero_le n) hp
  have hsound : visInv (reachPairs B (rootPairs ds sc) n) st' := by
    refine traverseSeq_inv (traverseItem_inv hclos fuel) _ _ _ h hroots ?_
    intro e he
    cases he
  have hclosAll : ∀ e ∈ st'.visited,
      closProp B (st'.visited.map Prod.fst) e := by
    intro e he
    have h0 := traverseSeq_clos
        (fun a b c d he1 hf => traverseItem_clos fuel a b c d he1 hf) []
        (rootPairs ds sc) _ st' h ?_ e he
    · rcases h0 with hl | hr
      · cases hl
      · exact hr
    · intro e1 he1
      cases he1
  intro k
  induction k with
  | zero =>
    intro _ p hp o hobj hw
    exact traverseSeq_covers (rootPairs ds sc) _ st' h p hp o hobj hw
  | succ k ihk =>
    intro hkn p hp o hobj hw
    simp only [reachPairs] at hp
    unfold stepClosure at hp
    rw [List.mem_dedup] at hp
    rcases List.mem_append.mp hp with hink | hchild
    · exact ihk (Nat.le_of_succ_le hkn) p hink o hobj hw
    · obtain ⟨q, hqR, hqc⟩ := List.mem_flatMap.mp hchild
      obtain ⟨q1, q2⟩ := q
      cases q1 with
      | obj oq =>
        unfold pairChildren at hqc
        simp only at hqc
        split at hqc
        · rename_i hwq
          split at hqc
          · rename_i exq hexpq
            have hoqvis := ihk (Nat.le_of_succ_le hkn) (.obj oq, q2) hqR oq
              rfl hwq
            obtain ⟨e, heVis, hefst⟩ := List.exists_of_mem_map hoqvis
            obtain ⟨heR, hew⟩ := hsound e heVis
            have hqRn : ((DataItem.obj oq, q2) : DataItem × DataItem) ∈
                reachPairs B (rootPairs ds sc) n :=
              reachPairs_mono (Nat.le_of_succ_le hkn) hqR
            have heRn : ((DataItem.obj e.1, e.2) : DataItem × DataItem) ∈
                reachPairs B (rootPairs ds sc) n := heR
            have hsceq : e.2 = q2 := by
              refine schemaDet_spec hdet oq e.2 q2 ?_ hqRn hew hwq
              rw [← hefst]
              exact heRn
            obtain ⟨ex', hexp', hcov'⟩ := hclosAll e heVis
            have hexeq : ex' = exq := by
              have h1 : expand B oq q2 = .ok ex' := by
                rw [← hefst, ← hsceq]
                exact hexp'
              rw [h1] at hexpq
              cases hexpq
              rfl
            subst hexeq
            exact hcov' p hqc o hobj hw
          · cases hqc
        · cases hqc
      | missing => cases hqc
      | prim pp =>
        unfold pairChildren at hqc
        simp only at hqc
        cases hqc
      | dtype dd =>
        unfold pairChildren at hqc
        simp only at hqc
        cases hqc

/-! ## Engine lemmas: visitor-state invariants -/

theorem alookup_mem {α β : Type} [DecidableEq α] :
    ∀ (l : List (α × β)) (a : α) (v : β), alookup l a = some v → (a, v) ∈ l := by
  intro l
  induction l with
  | nil =>
    intro a v h
    cases h
  | cons p l ih =>
    intro a v h
    obtain ⟨k, w⟩ := p
    simp only [alookup] at h
    split at h
    · rename_i hk
      cases h
      subst hk
      exact List.mem_cons_self _ _
    · exact List.mem_cons_of_mem _ (ih a v h)

theorem alookup_isSome_cons {α β : Type} [DecidableEq α] {l : List (α × β)}
    {k a : α} {v : β} (h : (alookup l a).isSome) :
    (alookup ((k, v) :: l) a).isSome := by
  simp only [alookup]
  split
  · rfl
  · exact h

theorem emitNode_vst {σ : Type} {V : Visitor σ} {P : σ → Prop}
    (hp : vstPres V P) {item : DataItem} {ex : Expansion} {s s' : σ}
    (h : emitNode V item ex s = .ok s') (hs : P s) : P s' := by
  obtain ⟨_, hl, hd, ho, hsc, _⟩ := hp
  unfold emitNode at h
  split at h
  · split at h
    · cases h
    · exact hl _ _ _ _ _ _ h hs
  · split at h
    · cases h
    · split at h
      · cases h
      · exact hd _ _ _ _ _ _ h hs
  · split at h
    · cases h
    · exact ho _ _ _ _ _ _ h hs
  · split at h
    · cases h
    · exact hsc _ _ _ _ _ _ h hs

theorem traverseSeq_vst {σ : Type} {P : σ → Prop}
    {t : TState σ → DataItem × DataItem → Except Err (TState σ)}
    (ht : ∀ st p st', t st p = .ok st' → P st.vst → P st'.vst) :
    ∀ (ps : List (DataItem × DataItem)) (st st' : TState σ),
      traverseSeq t st ps = .ok st' → P st.vst → P st'.vst := by
  intro ps
  induction ps with
  | nil =>
    intro st st' h hs
    simp only [traverseSeq] at h
    cases h
    exact hs
  | cons p ps ih =>
    intro st st' h hs
    simp only [traverseSeq] at h
    cases hq : t st p with
    | error e => rw [hq] at h; cases h
    | ok st1 =>
      rw [hq] at h
      exact ih st1 st' h (ht st p st1 hq hs)

theorem traverseItem_vst {σ : Type} {V : Visitor σ} {B : Bag} {P : σ → Prop}
    (hp : vstPres V P) :
    ∀ (n : Nat) (st : TState σ) (p : DataItem × DataItem) (st' : TState σ),
      traverseItem V B n st p = .ok st' → P st.vst → P st'.vst := by
  intro n
  induction n with
  | zero =>
    intro st p st' h
    simp [traverseItem] at h
  | succ n ih =>
    have hterm : ∀ (item sc : DataItem) (st st' : TState σ),
        terminalStep V item sc st = .ok st' → P st.vst → P st'.vst := by
      intro item sc st st' h hs
      unfold terminalStep at h
      split at h
      · cases h
      · rename_i s1 hpre
        split at h
        · cases h
        · rename_i s2 hprim
          cases h
          exact hp.2.2.2.2.2 _ _ _ _ hprim (hp.1 _ _ _ _ hpre hs)
    intro st p st' h hs
    obtain ⟨item, sc⟩ := p
    cases item with
    | obj o =>
      simp only [traverseItem] at h
      split at h
      · unfold nodeStep at h
        split at h
        · cases h
          exact hs
        · split at h
          · cases h
          · rename_i vst1 hpre
            split at h
            · cases h
            · split at h
              · cases h
              · rename_i st2 hseq
                split at h
                · cases h
                · rename_i vst2 hemit
                  cases h
                  have h1 : P vst1 := hp.1 _ _ _ _ hpre hs
                  have h2 := traverseSeq_vst ih _ _ _ hseq h1
                  exact emitNode_vst hp hemit h2
      · exact hterm _ _ _ _ h hs
    | missing =>
      simp only [traverseItem] at h
      exact hterm _ _ _ _ h hs
    | prim q =>
      simp only [traverseItem] at h
      exact hterm _ _ _ _ h hs
    | dtype d =>
      simp only [traverseItem] at h
      exact hterm _ _ _ _ h hs

theorem dcPrevisitObject_fresh {b0 : Nat} {item : DataItem} {s : CloneState}
    (hs : freshInv b0 s) : freshInv b0 (dcPrevisitObject item s) := by
  obtain ⟨h1, h2⟩ := hs
  unfold dcPrevisitObject
  split
  · rename_i o
    split
    · exact ⟨h1, h2⟩
    · refine ⟨Nat.le_succ_of_le h1, ?_⟩
      intro pr hpr
      rcases List.mem_cons.mp hpr with hh | ht
      · subst hh
        exact h1
      · exact h2 pr ht
  · exact ⟨h1, h2⟩

theorem dcPrevisitSchema_fresh {b0 : Nat} {slice : Bool} {item : DataItem}
    {s : CloneState} (hs : freshInv b0 s) :
    freshInv b0 (dcPrevisitSchema slice item s) := by
  obtain ⟨h1, h2⟩ := hs
  unfold dcPrevisitSchema
  split
  · rename_i o
    split
    · exact ⟨h1, h2⟩
    · split
      · exact ⟨h1, h2⟩
      · refine ⟨Nat.le_succ_of_le h1, ?_⟩
        intro pr hpr
        rcases List.mem_cons.mp hpr with hh | ht
        · subst hh
          split
          · exact h1
          · exact h1
        · exact h2 pr ht
  · exact ⟨h1, h2⟩

theorem dcSetSchemaAttr_fresh {b0 : Nat} {slice : Bool}
    {target schema : DataItem} {s s' : CloneState}
    (h : dcSetSchemaAttr slice target schema s = .ok s')
    (hs : freshInv b0 s) : freshInv b0 s' := by
  unfold dcSetSchemaAttr at h
  split at h
  · cases h
  · cases h
    exact hs

theorem deepCloneVisitor_fresh (b0 : Nat) (slice : Bool) :
    vstPres (deepCloneVisitor slice) (freshInv b0) := by
  refine ⟨?_, ?_, ?_, ?_, ?_, ?_⟩
  · intro it sc s s' h hs
    simp only [deepCloneVisitor] at h
    unfold dcPrevisit at h
    split at h
    · cases h
      exact dcPrevisitObject_fresh hs
    · split at h
      · cases h
        exact dcPrevisitObject_fresh hs
      · split at h
        · cases h
        · split at h
          · cases h
            exact dcPrevisitSchema_fresh hs
          · cases h
            exact hs
    · cases h
  · intro it sc b items s s' h hs
    simp only [deepCloneVisitor] at h
    unfold dcVisitList at h
    split at h
    · cases h
    · split at h
      · cases h
      · rename_i s2 hmid
        cases h
        have h2 : freshInv b0 s2 := by
          split at hmid
          · exact dcSetSchemaAttr_fresh hmid hs
          · cases hmid
            exact hs
        exact h2
  · intro it sc b entries s s' h hs
    simp only [deepCloneVisitor] at h
    unfold dcVisitDict at h
    split at h
    · cases h
    · split at h
      · cases h
      · rename_i s2 hmid
        cases h
        have h2 : freshInv b0 s2 := by
          split at hmid
          · exact dcSetSchemaAttr_fresh hmid hs
          · cases hmid
            exact hs
        exact h2
  · intro it sc b attrs s s' h hs
    simp only [deepCloneVisitor] at h
    unfold dcVisitObject at h
    split at h
    · cases h
    · split at h
      · cases h
      · rename_i s2 hmid
        cases h
        have h2 : freshInv b0 s2 := by
          split at hmid
          · exact dcSetSchemaAttr_fresh hmid hs
          · cases hmid
            exact hs
        exact h2
  · intro it sc b attrs s s' h hs
    simp only [deepCloneVisitor] at h
    unfold dcVisitObject at h
    split at h
    · cases h
    · split at h
      · cases h
      · rename_i s2 hmid
        cases h
        have h2 : freshInv b0 s2 := by
          split at hmid
          · exact dcSetSchemaAttr_fresh hmid hs
          · cases hmid
            exact hs
        exact h2
  · intro it sc s s' h hs
    simp only [deepCloneVisitor] at h
    cases h
    exact hs

/-! ## DeepClone helper lemmas -/

/-- A non-shared ObjectId whose `GetValue` succeeds against a fresh tracker
maps to an id from a destination allocation, hence differs from any id
whose base precedes the allocator mark. -/
theorem dcGetValue_fresh_ne {slice : Bool} {st : CloneState} {b0 : Nat}
    {o : ObjectId} {sc v : DataItem}
    (hcond : (o.isSchemaId && !slice && !o.isImplicitSchemaId) = false)
    (hget : dcGetValue slice (.obj o) sc st = .ok v)
    (hfresh : freshInv b0 st) (hsrc : o.allocId.base < b0) : v ≠ .obj o := by
  simp only [dcGetValue] at hget
  rw [if_neg (by simp [hcond])] at hget
  cases hl : alookup st.tracker o.allocId with
  | none => rw [hl] at hget; cases hget
  | some na =>
    rw [hl] at hget
    cases hget
    intro hv
    have hna : na = o.allocId := by
      have h1 : na.objectByOffset o.offset = o := by
        exact DataItem.obj.inj hv
      unfold AllocationId.objectByOffset at h1
      cases o
      cases h1
      rfl
    have hmem := alookup_mem st.tracker o.allocId na hl
    have hb := hfresh.2 _ hmem
    rw [hna] at hb
    exact absurd hsrc (Nat.not_lt_of_le hb)

/-- After `PrevisitObject` on an ObjectId item, its allocation is
tracked. -/
theorem dcPrevisitObject_tracks (st : CloneState) (o : ObjectId) :
    (alookup (dcPrevisitObject (.obj o) st).tracker o.allocId).isSome = true := by
  unfold dcPrevisitObject
  cases hl : alookup st.tracker o.allocId with
  | some na => simp [hl]
  | none => simp [hl, alookup]

/-- `PrevisitObject` never drops a tracker entry. -/
theorem dcPrevisitObject_mono (item : DataItem) (st : CloneState)
    (a : AllocationId) (h : (alookup st.tracker a).isSome = true) :
    (alookup (dcPrevisitObject item st).tracker a).isSome = true := by
  cases item with
  | obj o =>
    simp only [dcPrevisitObject]
    cases hl : alookup st.tracker o.allocId with
    | some na => simp only [hl]; exact h
    | none => simp only [hl]; exact alookup_isSome_cons h
  | missing => exact h
  | prim p => exact h
  | dtype d => exact h

/-- After `PrevisitSchema` on an implicit schema, its allocation is
tracked. -/
theorem dcPrevisitSchema_tracks (slice : Bool) (st : CloneState)
    (o : ObjectId) (himp : o.isImplicitSchemaId = true) :
    (alookup (dcPrevisitSchema slice (.obj o) st).tracker o.allocId).isSome
      = true := by
  simp only [dcPrevisitSchema]
  rw [if_neg (by simp [himp])]
  cases hl : alookup st.tracker o.allocId with
  | some na => simp [hl]
  | none => simp [hl, alookup]

/-- `PrevisitSchema` never drops a tracker entry. -/
theorem dcPrevisitSchema_mono (slice : Bool) (item : DataItem)
    (st : CloneState) (a : AllocationId)
    (h : (alookup st.tracker a).isSome = true) :
    (alookup (dcPrevisitSchema slice item st).tracker a).isSome = true := by
  cases item with
  | obj o =>
    simp only [dcPrevisitSchema]
    split
    · exact h
    · cases hl : alookup st.tracker o.allocId with
      | some na => simp only [hl]; exact h
      | none => simp only [hl]; exact alookup_isSome_cons h
  | missing => exact h
  | prim p => exact h
  | dtype d => exact h

/-! ## Claim theorems -/

/-- C5: for every DType `x` in the lattice, `CommonDType(x, x) = x`;
`CommonDType` is commutative (both succeeding with the same result or both
failing); and `CommonDType(NONE, x) = x`. -/
theorem commonDType_idem_comm_none_absorbs :
    (∀ x : DType, commonDType x x = some x) ∧
    (∀ x y : DType, commonDType x y = commonDType y x) ∧
    (∀ x : DType, commonDType .none_ x = some x) := by
  refine ⟨?_, ?_, ?_⟩ <;> decide

/-- C4: `CommonSchemaAggregator::Get()` result table — with a clean status
and a successful dtype fold: a dtype alone is returned as is; no dtype or
the NONE dtype next to an observed entity schema yields that entity schema;
nothing observed yields OBJECT; a non-NONE dtype next to an entity schema
fails with the no-common-schema error. -/
theorem commonSchemaAggregator_get_table
    (st : CommonSchemaAggregator) (r : Option DType)
    (hstatus : st.status = none)
    (hfold : dtypeAggGet st.seenDTypes = .ok r) :
    (∀ d : DType, r = some d → st.resObjectId = none →
      st.get = .ok (.dtype d)) ∧
    ((r = none ∨ r = some .none_) → ∀ o : ObjectId,
      st.resObjectId = some o → st.get = .ok (.obj o)) ∧
    (r = none → st.resObjectId = none → st.get = .ok (.dtype .objectM)) ∧
    (∀ (d : DType) (o : ObjectId), r = some d → d ≠ .none_ →
      st.resObjectId = some o →
      st.get = .error (.noCommonSchema (.dtype d) (.obj o))) := by
  refine ⟨?_, ?_, ?_, ?_⟩
  · intro d hr hobj
    simp [CommonSchemaAggregator.get, hfold, hstatus, hr, hobj]
  · intro hr o hobj
    rcases hr with h1 | h1 <;>
      simp [CommonSchemaAggregator.get, hfold, hstatus, h1, hobj]
  · intro hr hobj
    simp [CommonSchemaAggregator.get, hfold, hstatus, hr, hobj]
  · intro d o hr hne hobj
    simp [CommonSchemaAggregator.get, hfold, hstatus, hr, hobj, hne]

/-- Instantiation of the C4 result table on concrete aggregator states:
INT32 alone comes back as INT32; an entity schema next to the NONE dtype
comes back as the entity schema; the empty aggregator yields OBJECT; INT32
next to an entity schema is a no-common-schema failure. -/
theorem commonSchemaAggregator_get_table_witness :
    (({} : CommonSchemaAggregator).addDType .int32).get =
        .ok (.dtype .int32) ∧
    ((({} : CommonSchemaAggregator).addDType .none_).addObjectId entS).get =
        .ok (.obj entS) ∧
    ({} : CommonSchemaAggregator).get = .ok (.dtype .objectM) ∧
    ((({} : CommonSchemaAggregator).addDType .int32).addObjectId entS).get =
        .error (.noCommonSchema (.dtype .int32) (.obj entS)) := by
  refine ⟨?_, ?_, ?_, ?_⟩
  · exact (commonSchemaAggregator_get_table
      (({} : CommonSchemaAggregator).addDType .int32) (some .int32) rfl
      rfl).1 .int32 rfl rfl
  · exact (commonSchemaAggregator_get_table
      ((({} : CommonSchemaAggregator).addDType .none_).addObjectId entS)
      (some .none_) rfl rfl).2.1 (Or.inr rfl) entS rfl
  · exact (commonSchemaAggregator_get_table ({} : CommonSchemaAggregator)
      none rfl rfl).2.2.1 rfl rfl
  · exact (commonSchemaAggregator_get_table
      ((({} : CommonSchemaAggregator).addDType .int32).addObjectId entS)
      (some .int32) rfl rfl).2.2.2 .int32 entS rfl (by decide) rfl

/-- C8: adding a non-schema ObjectId to a `CommonSchemaAggregator` flags an
invalid-argument error; adding two different schema ObjectIds flags a
no-common-schema error carrying both conflicting schemas; adding the same
schema ObjectId twice succeeds (clean status, the schema retained). -/
theorem commonSchemaAggregator_add_objectid
    (st : CommonSchemaAggregator) (o o1 o2 : ObjectId)
    (hns : o.isSchemaId = false)
    (h1 : o1.isSchemaId = true) (h2 : o2.isSchemaId = true) (hne : o1 ≠ o2)
    (hst : st.status = none) (hobj : st.resObjectId = none) :
    (st.addObjectId o).status = some .invalidArgument ∧
    ((st.addObjectId o1).addObjectId o2).status =
      some (.noCommonSchema (.obj o1) (.obj o2)) ∧
    ((st.addObjectId o1).addObjectId o1).status = none ∧
    ((st.addObjectId o1).addObjectId o1).resObjectId = some o1 := by
  refine ⟨?_, ?_, ?_, ?_⟩
  · simp [CommonSchemaAggregator.addObjectId, hns]
  · simp [CommonSchemaAggregator.addObjectId, h1, h2, hobj, hne]
  · simp [CommonSchemaAggregator.addObjectId, h1, hobj, hst]
  · simp [CommonSchemaAggregator.addObjectId, h1, hobj]

/-- Instantiation of C8 at a fresh aggregator with the non-schema id
`entA0` and the two distinct explicit schemas `entS` and `entS2`. -/
theorem commonSchemaAggregator_add_objectid_witness :
    (({} : CommonSchemaAggregator).addObjectId entA0).status =
        some .invalidArgument ∧
    ((({} : CommonSchemaAggregator).addObjectId entS).addObjectId entS2).status
        = some (.noCommonSchema (.obj entS) (.obj entS2)) ∧
    ((({} : CommonSchemaAggregator).addObjectId entS).addObjectId entS).status
        = none ∧
    ((({} : CommonSchemaAggregator).addObjectId entS).addObjectId
        entS).resObjectId = some entS :=
  commonSchemaAggregator_add_objectid {} entA0 entS entS2 (by decide)
    (by decide) (by decide) (by decide) rfl rfl

/-- C1: allocation coherence of deep clone — if two source ObjectIds share
their AllocationId, then their `GetValue` images share one AllocationId and
sit at the same relative offsets
(`offset(a') - offset(b') = offset(a) - offset(b)`). -/
theorem deepClone_allocation_coherence
    (slice : Bool) (st : CloneState) (a b : ObjectId) (sca scb va vb : DataItem)
    (hab : a.allocId = b.allocId)
    (ha : dcGetValue slice (.obj a) sca st = .ok va)
    (hb : dcGetValue slice (.obj b) scb st = .ok vb) :
    ∃ a' b' : ObjectId, va = .obj a' ∧ vb = .obj b' ∧
      a'.allocId = b'.allocId ∧
      (a'.offset : Int) - (b'.offset : Int) =
        (a.offset : Int) - (b.offset : Int) := by
  have hks : a.isSchemaId = b.isSchemaId := by
    simp [ObjectId.isSchemaId, hab]
  have hki : a.isImplicitSchemaId = b.isImplicitSchemaId := by
    simp [ObjectId.isImplicitSchemaId, hab]
  simp only [dcGetValue] at ha hb
  split at ha
  · rename_i hcond
    cases ha
    rw [if_pos (by rw [← hks, ← hki]; exact hcond)] at hb
    cases hb
    exact ⟨a, b, rfl, rfl, hab, rfl⟩
  · rename_i hcond
    rw [if_neg (by rw [← hks, ← hki]; exact hcond)] at hb
    rw [← hab] at hb
    cases hl : alookup st.tracker a.allocId with
    | none =>
      rw [hl] at ha
      cases ha
    | some na =>
      rw [hl] at ha hb
      cases ha
      cases hb
      exact ⟨na.objectByOffset a.offset, na.objectByOffset b.offset, rfl, rfl,
        rfl, rfl⟩

/-- Instantiation of C1: two entities of one source allocation map to the
same fresh destination allocation with the offset difference preserved. -/
theorem deepClone_allocation_coherence_witness :
    ∃ a' b' : ObjectId,
      (DataItem.obj (AllocationId.objectByOffset ⟨100, 3, .entity⟩ 0) =
        .obj a') ∧
      (DataItem.obj (AllocationId.objectByOffset ⟨100, 3, .entity⟩ 2) =
        .obj b') ∧
      a'.allocId = b'.allocId ∧
      (a'.offset : Int) - (b'.offset : Int) =
        ((entA0.offset : Int) - (entA2.offset : Int)) :=
  deepClone_allocation_coherence false
    ⟨[(entAllocA, ⟨100, 3, .entity⟩)], 101, []⟩ entA0 entA2
    (.obj entS) (.obj entS)
    (.obj (AllocationId.objectByOffset ⟨100, 3, .entity⟩ 0))
    (.obj (AllocationId.objectByOffset ⟨100, 3, .entity⟩ 2))
    rfl rfl rfl

/-- C2: clone distinctness — after a deep-clone traversal started at a
fresh allocator mark `b0` (all source allocations lie below it), any
ObjectId that is actually remapped (entity, list, dict, or forked schema —
i.e. not an explicit schema shared by reference) receives a `GetValue`
image different from itself. -/
theorem deepClone_distinctness
    (B : Bag) (fuel b0 : Nat) (ds : List DataItem) (sc : DataItem)
    (slice : Bool) (st : TState CloneState) (o : ObjectId) (sc2 v : DataItem)
    (hrun : traverseSlice (deepCloneVisitor slice) B fuel
      (initCloneState b0) ds sc = .ok st)
    (hsrc : o.allocId.base < b0)
    (hnotshared : (o.isSchemaId && !slice && !o.isImplicitSchemaId) = false)
    (hget : dcGetValue slice (.obj o) sc2 st.vst = .ok v) :
    v ≠ .obj o := by
  have hfresh : freshInv b0 st.vst := by
    unfold traverseSlice at hrun
    refine traverseSeq_vst
      (traverseItem_vst (deepCloneVisitor_fresh b0 slice) fuel) _ _ _ hrun ?_
    exact ⟨Nat.le_refl b0, fun pr hpr => absurd hpr (List.not_mem_nil pr)⟩
  exact dcGetValue_fresh_ne hnotshared hget hfresh hsrc

/-- Instantiation of C2 on the shallow entity fixture: the clone of `entA0`
differs from `entA0`. -/
theorem deepClone_distinctness_witness :
    dcGetValue false (.obj entA0) (.obj entS)
        (stateOf (initCloneState 100)
          (traverseSlice (deepCloneVisitor false) entBag 20
            (initCloneState 100) entSlice (.obj entS))).vst ≠
      .ok (.obj entA0) := by
  intro hcontra
  have h := deepClone_distinctness entBag 20 100 entSlice (.obj entS) false
    (stateOf (initCloneState 100)
      (traverseSlice (deepCloneVisitor false) entBag 20 (initCloneState 100)
        entSlice (.obj entS)))
    entA0 (.obj entS) (.obj entA0) rfl (by decide) (by decide) hcontra
  exact h rfl

/-- C3: schema-forking policy — with `is_schema_slice` false, an explicit
entity schema is returned by `GetValue` unchanged and `PrevisitSchema`
never allocates for it; an implicit schema previsited under the `SCHEMA`
marker is forked, so its `GetValue` image differs from the source
schema. -/
theorem deepClone_schema_forking :
    (∀ (st : CloneState) (o : ObjectId) (sc : DataItem),
      o.isSchemaId = true → o.isImplicitSchemaId = false →
      dcGetValue false (.obj o) sc st = .ok (.obj o)) ∧
    (∀ (st : CloneState) (o : ObjectId), o.isImplicitSchemaId = false →
      dcPrevisitSchema false (.obj o) st = st) ∧
    (∀ (b0 : Nat) (st st2 : CloneState) (o : ObjectId) (v : DataItem),
      o.isImplicitSchemaId = true → freshInv b0 st → o.allocId.base < b0 →
      dcPrevisit false (.obj o) (.dtype .schemaM) st = .ok st2 →
      dcGetValue false (.obj o) (.dtype .schemaM) st2 = .ok v →
      v ≠ .obj o) := by
  refine ⟨?_, ?_, ?_⟩
  · intro st o sc hs hi
    simp [dcGetValue, hs, hi]
  · intro st o hi
    simp [dcPrevisitSchema, hi]
  · intro b0 st st2 o v himp hfr hsrc hpre hget
    have hst2 : st2 = dcPrevisitSchema false (.obj o) st := by
      simp only [dcPrevisit, if_true] at hpre
      cases hpre
      rfl
    subst hst2
    refine dcGetValue_fresh_ne (by simp [himp]) hget ?_ hsrc
    exact dcPrevisitSchema_fresh hfr

/-- Instantiation of C3: the explicit schema `entS` is shared unchanged and
not tracked; the implicit schema `impS` is forked to a different id. -/
theorem deepClone_schema_forking_witness :
    dcGetValue false (.obj entS) (.dtype .schemaM) (initCloneState 100) =
        .ok (.obj entS) ∧
    dcPrevisitSchema false (.obj entS) (initCloneState 100) =
        initCloneState 100 ∧
    (DataItem.obj (⟨⟨100, 2, .schemaExplicit⟩, 0⟩ : ObjectId) ≠
        .obj impS) := by
  refine ⟨?_, ?_, ?_⟩
  · exact deepClone_schema_forking.1 (initCloneState 100) entS
      (.dtype .schemaM) (by decide) (by decide)
  · exact deepClone_schema_forking.2.1 (initCloneState 100) entS (by decide)
  · exact deepClone_schema_forking.2.2 100 (initCloneState 100)
      (dcPrevisitSchema false (.obj impS) (initCloneState 100)) impS
      (.obj (⟨⟨100, 2, .schemaExplicit⟩, 0⟩ : ObjectId)) (by decide)
      ⟨Nat.le_refl 100, fun pr hpr => absurd hpr (List.not_mem_nil pr)⟩
      (by decide) rfl (by decide)

/-- C9: the `GetValue` contract of deep clone — a Previsit with an entity
or OBJECT schema tracks the item's allocation; `GetValue` on a tracked (or
exempted) item never fails; `GetValue` on an untracked, non-exempted item
fails with the allocation-not-found error; and Previsit never untracks an
allocation. -/
theorem deepClone_getvalue_contract :
    (∀ (slice : Bool) (st st2 : CloneState) (o : ObjectId) (sc : DataItem),
      dcPrevisit slice (.obj o) sc st = .ok st2 →
      (sc = .dtype .objectM ∨ sc.holdsObjectId = true) →
      (alookup st2.tracker o.allocId).isSome = true) ∧
    (∀ (slice : Bool) (st : CloneState) (o : ObjectId) (sc : DataItem),
      (alookup st.tracker o.allocId).isSome = true →
      ∃ v, dcGetValue slice (.obj o) sc st = .ok v) ∧
    (∀ (slice : Bool) (st : CloneState) (o : ObjectId) (sc : DataItem),
      (o.isSchemaId && !slice && !o.isImplicitSchemaId) = false →
      alookup st.tracker o.allocId = none →
      dcGetValue slice (.obj o) sc st = .error .allocationNotFound) ∧
    (∀ (slice : Bool) (st st2 : CloneState) (item sc : DataItem)
      (a : AllocationId),
      dcPrevisit slice item sc st = .ok st2 →
      (alookup st.tracker a).isSome = true →
      (alookup st2.tracker a).isSome = true) := by
  refine ⟨?_, ?_, ?_, ?_⟩
  · intro slice st st2 o sc hpre hsc
    rcases hsc with h1 | h1
    · subst h1
      simp only [dcPrevisit, if_true] at hpre
      cases hpre
      exact dcPrevisitObject_tracks st o
    · cases sc with
      | obj so =>
        simp only [dcPrevisit] at hpre
        cases hpre
        exact dcPrevisitObject_tracks st o
      | missing => cases h1
      | prim p => cases h1
      | dtype d => cases h1
  · intro slice st o sc hsome
    simp only [dcGetValue]
    split
    · exact ⟨.obj o, rfl⟩
    · obtain ⟨na, hna⟩ := Option.isSome_iff_exists.mp hsome
      rw [hna]
      exact ⟨.obj (na.objectByOffset o.offset), rfl⟩
  · intro slice st o sc hcond hnone
    simp only [dcGetValue]
    rw [if_neg (by simp [hcond]), hnone]
  · intro slice st st2 item sc a hpre hsome
    cases sc with
    | obj so =>
      simp only [dcPrevisit] at hpre
      cases hpre
      exact dcPrevisitObject_mono item st a hsome
    | dtype d =>
      simp only [dcPrevisit] at hpre
      split at hpre
      · cases hpre
        exact dcPrevisitObject_mono item st a hsome
      · split at hpre
        · cases hpre
        · split at hpre
          · cases hpre
            exact dcPrevisitSchema_mono slice item st a hsome
          · cases hpre
            exact hsome
    | missing => cases hpre
    | prim p => cases hpre

/-- Instantiation of C9: previsiting `entA0` under OBJECT tracks its
allocation and makes `GetValue` succeed; on the empty tracker the same
`GetValue` fails with the allocation-not-found error. -/
theorem deepClone_getvalue_contract_witness :
    (alookup (dcPrevisitObject (.obj entA0)
        (initCloneState 100)).tracker entA0.allocId).isSome = true ∧
    (∃ v, dcGetValue false (.obj entA0) (.dtype .objectM)
      (dcPrevisitObject (.obj entA0) (initCloneState 100)) = .ok v) ∧
    dcGetValue false (.obj entA0) (.dtype .objectM) (initCloneState 100) =
      .error .allocationNotFound := by
  refine ⟨?_, ?_, ?_⟩
  · exact deepClone_getvalue_contract.1 false (initCloneState 100)
      (dcPrevisitObject (.obj entA0) (initCloneState 100)) entA0
      (.dtype .objectM) rfl (Or.inl rfl)
  · exact deepClone_getvalue_contract.2.1 false
      (dcPrevisitObject (.obj entA0) (initCloneState 100)) entA0
      (.dtype .objectM) (by decide)
  · exact deepClone_getvalue_contract.2.2.1 false (initCloneState 100)
      entA0 (.dtype .objectM) (by decide) rfl

/-- C7: the dynamic ANY schema marker reaching deep clone aborts the call —
`Previsit` refuses it outright, and a whole `DeepCloneOp` call over a
non-empty slice declared ANY returns the unsupported-schema error and no
result slice. -/
theorem deepClone_any_schema_aborts :
    (∀ (slice : Bool) (item : DataItem) (st : CloneState),
      dcPrevisit slice item (.dtype .anyM) st = .error .unsupportedSchema) ∧
    (∀ (B : Bag) (fuel b0 : Nat) (d : DataItem) (ds : List DataItem),
      deepCloneOp B (fuel + 1) b0 (d :: ds) (.dtype .anyM) =
        .error .unsupportedSchema) := by
  constructor
  · intro slice item st
    rfl
  · intro B fuel b0 d ds
    cases d <;> rfl

/-- C10: a forked implicit schema changes kind — `PrevisitSchema` maps an
untracked implicit schema to a fresh explicit-schema allocation of the same
capacity, its `GetValue` image is an explicit (non-implicit) schema id at
the same offset, `SetSchemaAttr` writes exactly that id as the `__schema__`
attribute, while the like-allocation used for entities, lists and dicts
preserves the source kind. -/
theorem deepClone_implicit_fork_changes_kind
    (slice : Bool) (st : CloneState) (o : ObjectId) (target : DataItem)
    (himp : o.isImplicitSchemaId = true)
    (habsent : alookup st.tracker o.allocId = none) :
    ∃ s' : ObjectId,
      dcGetValue slice (.obj o) (.dtype .schemaM)
          (dcPrevisitSchema slice (.obj o) st) = .ok (.obj s') ∧
      s'.allocId = allocateExplicitSchemas o.allocId.capacity st.nextBase ∧
      s'.isImplicitSchemaId = false ∧ s'.isSchemaId = true ∧
      s'.allocId.capacity = o.allocId.capacity ∧ s'.offset = o.offset ∧
      (∀ st3 : CloneState,
        dcSetSchemaAttr slice target (.obj o)
            (dcPrevisitSchema slice (.obj o) st) = .ok st3 →
        st3.dest = .setAttr target kSchemaAttr (.obj s') ::
          (dcPrevisitSchema slice (.obj o) st).dest) ∧
      (∀ (al : AllocationId) (fb : Nat),
        (newAllocationIdLike al fb).kind = al.kind) := by
  have hst2 : dcPrevisitSchema slice (.obj o) st =
      ⟨(o.allocId, allocateExplicitSchemas o.allocId.capacity st.nextBase) ::
        st.tracker, st.nextBase + 1, st.dest⟩ := by
    simp [dcPrevisitSchema, himp, habsent]
  have hget : dcGetValue slice (.obj o) (.dtype .schemaM)
      (dcPrevisitSchema slice (.obj o) st) =
      .ok (.obj ⟨allocateExplicitSchemas o.allocId.capacity st.nextBase,
        o.offset⟩) := by
    rw [hst2]
    simp [dcGetValue, himp, alookup, AllocationId.objectByOffset]
  refine ⟨⟨allocateExplicitSchemas o.allocId.capacity st.nextBase, o.offset⟩,
    hget, rfl, by simp [ObjectId.isImplicitSchemaId, allocateExplicitSchemas],
    by simp [ObjectId.isSchemaId, allocateExplicitSchemas], rfl, rfl, ?_,
    fun al fb => rfl⟩
  intro st3 hset
  unfold dcSetSchemaAttr at hset
  rw [hget] at hset
  cases hset
  rfl

/-- Instantiation of C10 on the implicit schema `impS` over the empty
tracker. -/
theorem deepClone_implicit_fork_changes_kind_witness :
    ∃ s' : ObjectId,
      dcGetValue false (.obj impS) (.dtype .schemaM)
          (dcPrevisitSchema false (.obj impS) (initCloneState 100)) =
        .ok (.obj s') ∧
      s'.allocId = allocateExplicitSchemas impS.allocId.capacity 100 ∧
      s'.isImplicitSchemaId = false ∧ s'.isSchemaId = true ∧
      s'.allocId.capacity = impS.allocId.capacity ∧ s'.offset = impS.offset ∧
      (∀ st3 : CloneState,
        dcSetSchemaAttr false (.prim (.intV 0)) (.obj impS)
            (dcPrevisitSchema false (.obj impS) (initCloneState 100)) =
          .ok st3 →
        st3.dest = .setAttr (.prim (.intV 0)) kSchemaAttr (.obj s') ::
          (dcPrevisitSchema false (.obj impS) (initCloneState 100)).dest) ∧
      (∀ (al : AllocationId) (fb : Nat),
        (newAllocationIdLike al fb).kind = al.kind) :=
  deepClone_implicit_fork_changes_kind false (initCloneState 100) impS
    (.prim (.intV 0)) (by decide) rfl

/-- C6: a successful traversal over a root slice and declared schema, with
a stabilized reachable-pair closure whose objects each carry a single
active schema, Previsits and Visits every distinct reachable ObjectId
exactly once: the visited list (one entry per node Previsit) has no
duplicate objects, the log of completed `Visit*` calls is a permutation of
it, and it contains exactly the reachable ObjectIds. -/
theorem traversal_visits_each_object_once
    {σ : Type} (V : Visitor σ) (B : Bag) (fuel : Nat) (vst0 : σ)
    (ds : List DataItem) (sc : DataItem) (n : Nat) (st : TState σ)
    (hrun : traverseSlice V B fuel vst0 ds sc = .ok st)
    (hclos : closedUnderB B (reachPairs B (rootPairs ds sc) n) = true)
    (hdet : schemaDeterministicB (reachPairs B (rootPairs ds sc) n) = true) :
    (st.visited.map Prod.fst).Nodup ∧
    st.vLog.Perm (st.visited.map Prod.fst) ∧
    (∀ o : ObjectId, o ∈ st.visited.map Prod.fst ↔
      reachableObj (reachPairs B (rootPairs ds sc) n) o) := by
  have hrun2 := hrun
  unfold traverseSlice at hrun2
  refine ⟨?_, ?_, ?_⟩
  · exact traverseSeq_nodup (traverseItem_nodup V B fuel) _ _ _ hrun2
      (by simp)
  · obtain ⟨Δ, hv, hl⟩ := traverseSeq_delta (traverseItem_delta V B fuel)
      _ _ _ hrun2
    simp only at hv hl
    rw [hv]
    simpa using hl
  · intro o
    constructor
    · intro ho
      obtain ⟨e, he, hef⟩ := List.exists_of_mem_map ho
      have hroots : ∀ p ∈ rootPairs ds sc,
          p ∈ reachPairs B (rootPairs ds sc) n :=
        fun p hp => reachPairs_mono (Nat.zero_le n) hp
      have hinv := traverseSeq_inv (traverseItem_inv hclos fuel) _ _ _ hrun2
        hroots (by intro e1 he1; cases he1) e he
      exact ⟨e.2, by rw [← hef]; exact hinv.1, hinv.2⟩
    · rintro ⟨sc1, hmem, hw⟩
      exact traverse_complete hrun hclos hdet n (Nat.le_refl n)
        (DataItem.obj o, sc1) hmem o rfl hw

/-- Instantiation of C6: the no-op traversal of the mixed fixture —
entities, dicts, lists and bare primitives under the dynamic OBJECT
schema — terminates successfully and visits each reachable object exactly
once. -/
theorem traversal_visits_each_object_once_witness :
    ((stateOf ([] : List (DataItem × DataItem))
        (traverseSlice noOpVisitor mixBag 30 [] mixSlice
          (.dtype .objectM))).visited.map Prod.fst).Nodup ∧
    (stateOf ([] : List (DataItem × DataItem))
        (traverseSlice noOpVisitor mixBag 30 [] mixSlice
          (.dtype .objectM))).vLog.Perm
      ((stateOf ([] : List (DataItem × DataItem))
        (traverseSlice noOpVisitor mixBag 30 [] mixSlice
          (.dtype .objectM))).visited.map Prod.fst) ∧
    (∀ o : ObjectId,
      o ∈ (stateOf ([] : List (DataItem × DataItem))
        (traverseSlice noOpVisitor mixBag 30 [] mixSlice
          (.dtype .objectM))).visited.map Prod.fst ↔
      reachableObj
        (reachPairs mixBag (rootPairs mixSlice (.dtype .objectM)) 6) o) :=
  traversal_visits_each_object_once noOpVisitor mixBag 30 [] mixSlice
    (.dtype .objectM) 6
    (stateOf ([] : List (DataItem × DataItem))
      (traverseSlice noOpVisitor mixBag 30 [] mixSlice (.dtype .objectM)))
    rfl (by decide) (by decide)

end Koladata
